import Mathlib

/-!
Shallow embedding of the pcap-diff comparison engine
(`src/pcap_diff/packet_differ.py` and `src/pcap_diff/models.py`).

Python scalar field values are modelled by `PyVal`: `none` is Python's
`None`, `num` covers Python ints and floats (both compare by numeric value
in Python, so a single rational constructor is faithful to `==`), `str`
covers strings and `bytes` byte sequences.  Python dicts are modelled as
association lists; `dictGet d k` is `d.get(k)` (returning `None` for a
missing key) and `dictSet` is `d[k] = v` (overwrite in place, append if
fresh).  Python `set` iteration order is unspecified, so key unions are
taken in a canonical order (`dedup`); only membership matters downstream.
Wall-clock timing, logging and the capture metadata carried through
unchanged are omitted: no claim mentions them.
-/

namespace PcapDiff

/-- A Python scalar value as stored in a packet field mapping. -/
inductive PyVal : Type where
  | none : PyVal
  | str : String → PyVal
  | num : ℚ → PyVal
  | bytes : List Nat → PyVal
deriving DecidableEq

/-- `d.get(k)`: first binding of `k`, Python's `None` when absent. -/
def dictGet (d : List (String × PyVal)) (k : String) : PyVal :=
  match d.lookup k with
  | some v => v
  | Option.none => PyVal.none

/-- `k in d` for a Python dict. -/
def hasKey (d : List (String × PyVal)) (k : String) : Bool :=
  (d.lookup k).isSome

/-- `d[k] = v`: overwrite the binding in place, append when the key is fresh. -/
def dictSet (d : List (String × PyVal)) (k : String) (v : PyVal) :
    List (String × PyVal) :=
  if (d.lookup k).isSome then
    d.map (fun kv => if kv.1 = k then (kv.1, v) else kv)
  else
    d ++ [(k, v)]

/-- `for k, v in kvs: d[k] = v`. -/
def dictUpdate (d : List (String × PyVal)) (kvs : List (String × PyVal)) :
    List (String × PyVal) :=
  kvs.foldl (fun acc kv => dictSet acc kv.1 kv.2) d

/-- `models.DiffType`. -/
inductive DiffType : Type where
  | unchanged : DiffType
  | added : DiffType
  | removed : DiffType
  | modified : DiffType
deriving DecidableEq

/-- `models.PacketLayer`: name, field dict, ordered sublayers.
`raw_data` is never compared by the engine and is omitted. -/
inductive PacketLayer : Type where
  | mk : String → List (String × PyVal) → List PacketLayer → PacketLayer

def PacketLayer.name : PacketLayer → String
  | .mk n _ _ => n

def PacketLayer.fields : PacketLayer → List (String × PyVal)
  | .mk _ f _ => f

def PacketLayer.sublayers : PacketLayer → List PacketLayer
  | .mk _ _ s => s

/-- The `timestamp` field of a packet, when it is a number.  The spec fixes
the timestamp to a float (seconds since epoch) or absent; a non-numeric
value would make the Python sort / subtraction raise, so only numeric
timestamps are in the model's domain. -/
def PacketLayer.timestampQ (p : PacketLayer) : Option ℚ :=
  match dictGet p.fields "timestamp" with
  | PyVal.num q => some q
  | _ => Option.none

/-- Placeholder used with `List.getD`; alignment indices are always
in range, so it is never actually selected. -/
def defaultPacket : PacketLayer := PacketLayer.mk "" [] []

mutual

/-- `models.PacketLayer.get_all_fields_flat` (mutual with the loop over
sublayers): the layer's own dict, then each sublayer's flattened dict
written in with keys prefixed by the sublayer name. -/
def get_all_fields_flat : PacketLayer → List (String × PyVal)
  | .mk _ fields subs => flatGo fields subs

/-- The `for sublayer in self.sublayers` loop inside `get_all_fields_flat`. -/
def flatGo : List (String × PyVal) → List PacketLayer → List (String × PyVal)
  | acc, [] => acc
  | acc, sl :: rest =>
      flatGo
        (dictUpdate acc
          ((get_all_fields_flat sl).map fun kv => (sl.name ++ "." ++ kv.1, kv.2)))
        rest

end

/-- `PacketDiffer.__init__` state: the two thresholds and the ignore set. -/
structure PacketDiffer : Type where
  alignment_threshold : ℚ
  time_window : ℚ
  ignore_fields : List String

/-- The hardcoded `self.ignore_fields` set from `PacketDiffer.__init__`. -/
def defaultIgnoreFields : List String :=
  ["frame.time_epoch", "frame.time_delta", "frame.time_relative",
   "frame.number", "ip.checksum", "tcp.checksum", "udp.checksum",
   "icmp.checksum"]

/-- `enumerate(packets)` filtered to packets whose `timestamp` is not
`None`, as `(ts, index)` pairs; `k` is the running index. -/
def extractTS (k : Nat) : List PacketLayer → List (ℚ × Nat)
  | [] => []
  | p :: rest =>
      match p.timestampQ with
      | some q => (q, k) :: extractTS (k + 1) rest
      | Option.none => extractTS (k + 1) rest

def extractTimestamps (packets : List PacketLayer) : List (ℚ × Nat) :=
  extractTS 0 packets

/-- Python's lexicographic `<=` on `(timestamp, index)` tuples, used by
`list.sort()` on the timestamp lists. -/
def tsLE (a b : ℚ × Nat) : Bool :=
  decide (a.1 < b.1) || (decide (a.1 = b.1) && decide (a.2 ≤ b.2))

/-- `tsLE` as a relation, for the sorting algorithm. -/
def tsLEP (a b : ℚ × Nat) : Prop := tsLE a b = true

instance : DecidableRel tsLEP :=
  fun a b => inferInstanceAs (Decidable (tsLE a b = true))

/-- `timestamps.sort()`: Python sorts the `(timestamp, index)` tuples
lexicographically; since `tsLE` is total and antisymmetric (the indices are
distinct), the sorted permutation is unique, so any correct sorting
algorithm models `list.sort()`; insertion sort keeps the model executable. -/
def sortTs (l : List (ℚ × Nat)) : List (ℚ × Nat) :=
  List.insertionSort tsLEP l

/-- The inner `for ts2, idx2 in timestamps2` scan of `align_packets`,
threading `(best_match, best_diff)`; `best = none` is the initial
`best_match = None, best_diff = inf` state. -/
def scanBest (window ts1 : ℚ) (used2 : List Nat) :
    List (ℚ × Nat) → Option (Nat × ℚ) → Option (Nat × ℚ)
  | [], best => best
  | (ts2, idx2) :: rest, best =>
      if idx2 ∈ used2 then scanBest window ts1 used2 rest best
      else
        let d := |ts2 - ts1|
        if (decide (d ≤ window) &&
            match best with
            | Option.none => true
            | some (_, bd) => decide (d < bd)) then
          scanBest window ts1 used2 rest (some (idx2, d))
        else
          scanBest window ts1 used2 rest best

/-- The outer `for ts1, idx1 in timestamps1` loop of `align_packets`,
returning the emitted pairs together with the final `used2`.  (`used1`
is written but never read in the source, so it is not modelled.) -/
def alignLoop (window : ℚ) (ts2 : List (ℚ × Nat)) :
    List (ℚ × Nat) → List Nat → List (Option Nat × Option Nat) × List Nat
  | [], used2 => ([], used2)
  | (ts1, idx1) :: rest, used2 =>
      match scanBest window ts1 used2 ts2 Option.none with
      | some (b, _) =>
          let r := alignLoop window ts2 rest (b :: used2)
          ((some idx1, some b) :: r.1, r.2)
      | Option.none =>
          let r := alignLoop window ts2 rest used2
          ((some idx1, Option.none) :: r.1, r.2)

/-- `PacketDiffer.align_packets` with the window passed explicitly. -/
def alignCore (window : ℚ) (packets1 packets2 : List PacketLayer) :
    List (Option Nat × Option Nat) :=
  let timestamps1 := sortTs (extractTimestamps packets1)
  let timestamps2 := sortTs (extractTimestamps packets2)
  let r := alignLoop window timestamps2 timestamps1 []
  r.1 ++ timestamps2.filterMap fun c =>
    if c.2 ∈ r.2 then Option.none else some (Option.none, some c.2)

/-- `PacketDiffer.align_packets`. -/
def align_packets (self : PacketDiffer) (packets1 packets2 : List PacketLayer) :
    List (Option Nat × Option Nat) :=
  alignCore self.time_window packets1 packets2

/-- The candidate test of the inner scan: not yet used and within the
time window. -/
def viable (window ts1 : ℚ) (used2 : List Nat) (c : ℚ × Nat) : Bool :=
  decide (c.2 ∉ used2) && decide (|c.1 - ts1| ≤ window)

/-- `scanBest` restricted to viable candidates (proof-layer view of the
same loop: skipping and the window test are pushed into a filter). -/
def scanBestSimple (ts1 : ℚ) :
    List (ℚ × Nat) → Option (Nat × ℚ) → Option (Nat × ℚ)
  | [], best => best
  | (ts2, idx2) :: rest, best =>
      if (match best with
          | Option.none => true
          | some (_, bd) => decide (|ts2 - ts1| < bd)) then
        scanBestSimple ts1 rest (some (idx2, |ts2 - ts1|))
      else
        scanBestSimple ts1 rest best

/-- Specification-side selection (§4.1 step 2 of the spec, stated over an
already-filtered candidate list): the candidate with minimum absolute
timestamp difference, ties resolving to the earlier candidate. -/
def minFirstPair (ts1 : ℚ) : List (ℚ × Nat) → Option (Nat × ℚ)
  | [] => Option.none
  | (ts2, idx2) :: rest =>
      match minFirstPair ts1 rest with
      | Option.none => some (idx2, |ts2 - ts1|)
      | some (j, d') =>
          if |ts2 - ts1| ≤ d' then some (idx2, |ts2 - ts1|) else some (j, d')

/-- The body of the `for field_name in all_field_names` loop of
`PacketDiffer._compare_layer_fields`: skip ignored names, then classify
from the two `.get` results (a stored `None` is indistinguishable from an
absent key). -/
def classifyField (ignore : List String)
    (fields1 fields2 : List (String × PyVal)) (nm : String) :
    Option (String × DiffType) :=
  if nm ∈ ignore then Option.none
  else
    let value1 := dictGet fields1 nm
    let value2 := dictGet fields2 nm
    if value1 = PyVal.none ∧ value2 ≠ PyVal.none then
      some (nm, DiffType.added)
    else if value1 ≠ PyVal.none ∧ value2 = PyVal.none then
      some (nm, DiffType.removed)
    else if value1 ≠ value2 then
      some (nm, DiffType.modified)
    else
      Option.none

/-- `PacketDiffer._compare_layer_fields`: classify every field name in the
key union (`all_field_names`). -/
def compare_layer_fields (ignore : List String)
    (fields1 fields2 : List (String × PyVal)) : List (String × DiffType) :=
  ((fields1.map Prod.fst ++ fields2.map Prod.fst).dedup).filterMap
    (classifyField ignore fields1 fields2)

/-- `{layer.name: layer for layer in ls}.get(n)`: the comprehension keeps
the last sublayer with a given name. -/
def lastWithName (ls : List PacketLayer) (n : String) : Option PacketLayer :=
  (ls.filter fun l => l.name = n).getLast?

/-- `PacketDiffer.compare_layers`: only the immediate sublayers of the two
roots are aligned, by name.  (In the one-sided branches the source's
`if layer2:` is always true for a dataclass instance, and the ignore set
is not consulted.) -/
def compare_layers (ignore : List String) (packet1 packet2 : PacketLayer) :
    List (String × List (String × DiffType)) :=
  ((packet1.sublayers.map PacketLayer.name ++
    packet2.sublayers.map PacketLayer.name).dedup).filterMap fun lname =>
    let field_diffs : List (String × DiffType) :=
      match lastWithName packet1.sublayers lname,
            lastWithName packet2.sublayers lname with
      | Option.none, some l2 => l2.fields.map fun kv => (kv.1, DiffType.added)
      | some l1, Option.none => l1.fields.map fun kv => (kv.1, DiffType.removed)
      | some l1, some l2 => compare_layer_fields ignore l1.fields l2.fields
      | Option.none, Option.none => []
    if field_diffs = [] then Option.none else some (lname, field_diffs)

/-- The flattened field dict of a packet with the ignored keys removed
(the two dict comprehensions in `calculate_similarity`). -/
def simFields (ignore : List String) (p : PacketLayer) :
    List (String × PyVal) :=
  (get_all_fields_flat p).filter fun kv => decide (kv.1 ∉ ignore)

/-- `set(fields1.keys()) | set(fields2.keys())`, canonically ordered. -/
def simUnion (fields1 fields2 : List (String × PyVal)) : List String :=
  (fields1.map Prod.fst ++ fields2.map Prod.fst).dedup

/-- `PacketDiffer.calculate_similarity`. -/
def similarityCore (ignore : List String) (packet1 packet2 : PacketLayer) : ℚ :=
  let fields1 := simFields ignore packet1
  let fields2 := simFields ignore packet2
  let all_fields := simUnion fields1 fields2
  if all_fields = [] then 1
  else
    (all_fields.countP fun k => decide (dictGet fields1 k = dictGet fields2 k)) /
      (all_fields.length : ℚ)

/-- `PacketDiffer.calculate_similarity` (method form). -/
def calculate_similarity (self : PacketDiffer) (packet1 packet2 : PacketLayer) :
    ℚ :=
  similarityCore self.ignore_fields packet1 packet2

/-- `models.PacketDiff` (the fields the engine writes). -/
structure PacketDiff : Type where
  packet_id : Nat
  timestamp_1 : PyVal := PyVal.none
  timestamp_2 : PyVal := PyVal.none
  diff_type : DiffType := DiffType.unchanged
  layer_diffs : List (String × List (String × DiffType)) := []
  packet_1 : Option PacketLayer := Option.none
  packet_2 : Option PacketLayer := Option.none
  similarity_score : ℚ := 0

/-- `PacketDiffer._compare_packets`. -/
def compare_packets (ignore : List String)
    (packet1 packet2 : PacketLayer) (packet_id : Nat) : PacketDiff :=
  let layer_diffs := compare_layers ignore packet1 packet2
  let similarity := similarityCore ignore packet1 packet2
  let diff_type :=
    if layer_diffs = [] then DiffType.unchanged else DiffType.modified
  { packet_id := packet_id
    timestamp_1 := dictGet packet1.fields "timestamp"
    timestamp_2 := dictGet packet2.fields "timestamp"
    diff_type := diff_type
    layer_diffs := layer_diffs
    packet_1 := some packet1
    packet_2 := some packet2
    similarity_score := similarity }

/-- `models.ComparisonResult` (metadata and wall-clock time omitted). -/
structure ComparisonResult : Type where
  packet_diffs : List PacketDiff
  total_packets_1 : Nat
  total_packets_2 : Nat
  identical_packets : Nat
  modified_packets : Nat
  added_packets : Nat
  removed_packets : Nat

/-- One `PacketDiff` for one alignment entry, as built by the body of the
`for i, (idx1, idx2) in enumerate(alignments)` loop of `compare_captures`.
The final `else` arm is the source's defensive `(None, None)` branch. -/
def diffOfAlignment (ignore : List String)
    (packets1 packets2 : List PacketLayer)
    (i : Nat) (entry : Option Nat × Option Nat) : PacketDiff :=
  match entry with
  | (some idx1, some idx2) =>
      compare_packets ignore (packets1.getD idx1 defaultPacket)
        (packets2.getD idx2 defaultPacket) i
  | (some idx1, Option.none) =>
      { packet_id := i
        timestamp_1 := dictGet (packets1.getD idx1 defaultPacket).fields "timestamp"
        diff_type := DiffType.removed
        packet_1 := some (packets1.getD idx1 defaultPacket)
        similarity_score := 0 }
  | (Option.none, some idx2) =>
      { packet_id := i
        timestamp_2 := dictGet (packets2.getD idx2 defaultPacket).fields "timestamp"
        diff_type := DiffType.added
        packet_2 := some (packets2.getD idx2 defaultPacket)
        similarity_score := 0 }
  | (Option.none, Option.none) =>
      { packet_id := i
        diff_type := DiffType.removed
        similarity_score := 0 }

/-- `PacketDiffer.compare_captures` with the configuration passed
explicitly. -/
def compareCore (window : ℚ) (ignore : List String)
    (packets1 packets2 : List PacketLayer) : ComparisonResult :=
  let alignments := alignCore window packets1 packets2
  let packet_diffs :=
    (List.range alignments.length).zip alignments |>.map fun ie =>
      diffOfAlignment ignore packets1 packets2 ie.1 ie.2
  { packet_diffs := packet_diffs
    total_packets_1 := packets1.length
    total_packets_2 := packets2.length
    identical_packets :=
      packet_diffs.countP fun d => decide (d.diff_type = DiffType.unchanged)
    modified_packets :=
      packet_diffs.countP fun d => decide (d.diff_type = DiffType.modified)
    added_packets :=
      packet_diffs.countP fun d => decide (d.diff_type = DiffType.added)
    removed_packets :=
      packet_diffs.countP fun d => decide (d.diff_type = DiffType.removed) }

/-- `PacketDiffer.compare_captures`. -/
def compare_captures (self : PacketDiffer)
    (packets1 packets2 : List PacketLayer) : ComparisonResult :=
  compareCore self.time_window self.ignore_fields packets1 packets2

/-- The §3 `PacketDiff` invariant, minus the similarity clause: one-sided
entries carry exactly the surviving side's packet and no layer diffs;
`Modified` has a non-empty `layer_diffs`, `Unchanged` an empty one. -/
def diffInvariant (d : PacketDiff) : Bool :=
  match d.diff_type with
  | DiffType.added =>
      d.packet_2.isSome && !d.packet_1.isSome && d.layer_diffs.isEmpty
  | DiffType.removed =>
      d.packet_1.isSome && !d.packet_2.isSome && d.layer_diffs.isEmpty
  | DiffType.modified => !d.layer_diffs.isEmpty
  | DiffType.unchanged => d.layer_diffs.isEmpty

/-- A one-field packet with only a numeric `timestamp`, used in the
concrete examples. -/
def tsPacket (q : ℚ) : PacketLayer :=
  PacketLayer.mk "Packet" [("timestamp", PyVal.num q)] []

/-- A packet with a sublayer `tcp` whose field is literally named
`tcp.checksum` (the ignore-set spelling), used for the C7 example. -/
def tcpPacket (cs : ℚ) : PacketLayer :=
  PacketLayer.mk "Packet" [("timestamp", PyVal.num 1)]
    [PacketLayer.mk "tcp"
      [("tcp.checksum", PyVal.num cs), ("flag", PyVal.num 7)] []]

/-! ### Dictionary lemmas -/

theorem lookup_cons_eq (a k : String) (w : PyVal) (rest : List (String × PyVal)) :
    ((a, w) :: rest).lookup k = if k = a then some w else rest.lookup k := by
  rw [List.lookup_cons]
  by_cases h : k = a
  · simp [h]
  · simp [h, beq_eq_false_iff_ne.mpr h]

theorem hasKey_iff_mem_keys (d : List (String × PyVal)) (k : String) :
    hasKey d k = true ↔ k ∈ d.map Prod.fst := by
  simp only [hasKey, List.lookup_isSome_iff, beq_iff_eq, List.mem_map]
  constructor
  · rintro ⟨p, hp, he⟩; exact ⟨p, hp, he.symm⟩
  · rintro ⟨p, hp, he⟩; exact ⟨p, hp, he.symm⟩

theorem lookup_eq_none_of_not_mem {d : List (String × PyVal)} {k : String}
    (h : ¬ k ∈ d.map Prod.fst) : d.lookup k = Option.none := by
  refine List.lookup_eq_none_iff.mpr ?_
  intro p hp
  simp only [bne_iff_ne, ne_eq]
  intro he
  exact h (List.mem_map.mpr ⟨p, hp, he.symm⟩)

theorem dictGet_eq_none_of_not_mem {d : List (String × PyVal)} {k : String}
    (h : ¬ k ∈ d.map Prod.fst) : dictGet d k = PyVal.none := by
  simp [dictGet, lookup_eq_none_of_not_mem h]

theorem lookup_map_overwrite (d : List (String × PyVal)) (k k' : String)
    (v : PyVal) :
    (d.map fun kv => if kv.1 = k then (kv.1, v) else kv).lookup k' =
      if k' = k then (d.lookup k).map (fun _ => v) else d.lookup k' := by
  induction d with
  | nil => by_cases h : k' = k <;> simp [h]
  | cons kv rest ih =>
    obtain ⟨a, w⟩ := kv
    simp only [List.map_cons]
    by_cases hak : a = k
    · subst hak
      by_cases hk' : k' = a
      · simp [lookup_cons_eq, hk']
      · simp [lookup_cons_eq, hk', ih]
    · have hka : ¬ k = a := fun he => hak he.symm
      by_cases hk' : k' = a
      · have hkk : ¬ k' = k := fun he => hak (hk' ▸ he)
        simp [lookup_cons_eq, hak, hka, hk', hkk]
      · by_cases hkk : k' = k
        · subst hkk
          simp [lookup_cons_eq, hak, hka, hk', ih]
        · simp [lookup_cons_eq, hak, hka, hk', hkk, ih]

theorem lookup_dictSet (d : List (String × PyVal)) (k k' : String) (v : PyVal) :
    (dictSet d k v).lookup k' = if k' = k then some v else d.lookup k' := by
  unfold dictSet
  by_cases hs : (d.lookup k).isSome = true
  · rw [if_pos hs, lookup_map_overwrite]
    by_cases hk : k' = k
    · obtain ⟨w, hw⟩ := Option.isSome_iff_exists.mp hs
      simp [hk, hw]
    · simp [hk]
  · rw [if_neg hs, List.lookup_append]
    have hnone : d.lookup k = Option.none := by
      rcases ho : d.lookup k with _ | w
      · rfl
      · simp [ho] at hs
    by_cases hk : k' = k
    · subst hk
      rw [hnone, Option.none_or, lookup_cons_eq]
      simp
    · rw [lookup_cons_eq, if_neg hk, List.lookup_nil, Option.or_none]
      rw [if_neg hk]

theorem dictGet_dictSet (d : List (String × PyVal)) (k k' : String) (v : PyVal) :
    dictGet (dictSet d k v) k' = if k' = k then v else dictGet d k' := by
  simp only [dictGet, lookup_dictSet]
  by_cases hk : k' = k <;> simp [hk]

/-- Writing the same updates into two dicts preserves pointwise
`get`-agreement away from an exceptional key. -/
theorem dictGet_dictUpdate_congr (nm : String) (kvs : List (String × PyVal)) :
    ∀ a b : List (String × PyVal),
      (∀ k, k ≠ nm → dictGet a k = dictGet b k) →
      ∀ k, k ≠ nm → dictGet (dictUpdate a kvs) k = dictGet (dictUpdate b kvs) k := by
  induction kvs with
  | nil => intro a b h k hk; exact h k hk
  | cons kv rest ih =>
    intro a b h k hk
    refine ih (dictSet a kv.1 kv.2) (dictSet b kv.1 kv.2) ?_ k hk
    intro k' hk'
    rw [dictGet_dictSet, dictGet_dictSet]
    by_cases hkk : k' = kv.1 <;> simp [hkk, h k' hk']

theorem lookup_filter_key (pred : String → Bool) (d : List (String × PyVal))
    (k : String) (hp : pred k = true) :
    (d.filter fun kv => pred kv.1).lookup k = d.lookup k := by
  induction d with
  | nil => rfl
  | cons kv rest ih =>
    obtain ⟨a, w⟩ := kv
    by_cases hpa : pred a = true
    · rw [List.filter_cons_of_pos (by simpa using hpa), lookup_cons_eq,
        lookup_cons_eq, ih]
    · rw [List.filter_cons_of_neg (by simpa using hpa), ih, lookup_cons_eq]
      have hka : ¬ k = a := fun he => hpa (he ▸ hp)
      rw [if_neg hka]

theorem dictGet_filter (pred : String → Bool) (d : List (String × PyVal))
    (k : String) (hp : pred k = true) :
    dictGet (d.filter fun kv => pred kv.1) k = dictGet d k := by
  simp [dictGet, lookup_filter_key pred d k hp]

theorem pred_of_mem_keys_filter {pred : String → Bool}
    {d : List (String × PyVal)} {k : String}
    (h : k ∈ (d.filter fun kv => pred kv.1).map Prod.fst) : pred k = true := by
  obtain ⟨kv, hkv, hfst⟩ := List.mem_map.mp h
  obtain ⟨-, hpred⟩ := List.mem_filter.mp hkv
  simpa [hfst] using hpred

/-! ### Timestamp-extraction lemmas -/

theorem default_timestampQ : defaultPacket.timestampQ = Option.none := rfl

theorem extractTS_shift (ps : List PacketLayer) :
    ∀ k, extractTS k ps = (extractTS 0 ps).map (fun c => (c.1, c.2 + k)) := by
  induction ps with
  | nil => intro k; rfl
  | cons p rest ih =>
    intro k
    rcases hts : p.timestampQ with _ | q
    · simp only [extractTS, hts, ih (k + 1), ih 1, List.map_map]
      exact List.map_congr_left fun c _ => by
        simp only [Function.comp_apply, Prod.mk.injEq, true_and]
        omega
    · simp only [extractTS, hts, ih (k + 1), ih 1, List.map_map, List.map_cons]
      refine congrArg₂ _ (by simp) ?_
      exact List.map_congr_left fun c _ => by
        simp only [Function.comp_apply, Prod.mk.injEq, true_and]
        omega

theorem le_snd_of_mem_extractTS (ps : List PacketLayer) :
    ∀ k, ∀ c ∈ extractTS k ps, k ≤ c.2 := by
  induction ps with
  | nil => intro k c hc; simp [extractTS] at hc
  | cons p rest ih =>
    intro k c hc
    rcases hts : p.timestampQ with _ | q <;> simp only [extractTS, hts] at hc
    · exact Nat.le_of_succ_le (ih (k + 1) c hc)
    · rcases List.mem_cons.mp hc with hc | hc
      · simp [hc]
      · exact Nat.le_of_succ_le (ih (k + 1) c hc)

theorem pairwise_lt_extractTS (ps : List PacketLayer) :
    ∀ k, (extractTS k ps).Pairwise (fun a b => a.2 < b.2) := by
  induction ps with
  | nil => intro k; simp [extractTS]
  | cons p rest ih =>
    intro k
    rcases hts : p.timestampQ with _ | q <;> simp only [extractTS, hts]
    · exact ih (k + 1)
    · exact List.Pairwise.cons
        (fun c hc => Nat.lt_of_lt_of_le (Nat.lt_succ_self k)
          (le_snd_of_mem_extractTS rest (k + 1) c hc)) (ih (k + 1))

theorem mem_snd_extractTS (ps : List PacketLayer) (i : Nat) :
    i ∈ (extractTS 0 ps).map Prod.snd ↔
      ((ps.getD i defaultPacket).timestampQ).isSome = true := by
  induction ps generalizing i with
  | nil => simp [extractTS, default_timestampQ]
  | cons p rest ih =>
    rcases hts : p.timestampQ with _ | q
    · simp only [extractTS, hts]
      rw [extractTS_shift, List.map_map]
      cases i with
      | zero =>
        simp only [List.getD_cons_zero, hts, Option.isSome_none]
        simp only [List.mem_map, Function.comp_apply]
        constructor
        · rintro ⟨c, -, he⟩; omega
        · intro hm; cases hm
      | succ j =>
        simp only [List.getD_cons_succ]
        rw [← ih j]
        simp only [List.mem_map, Function.comp_apply]
        constructor
        · rintro ⟨c, hc, he⟩
          exact ⟨c, hc, by omega⟩
        · rintro ⟨c, hc, he⟩
          exact ⟨c, hc, by omega⟩
    · simp only [extractTS, hts]
      rw [extractTS_shift, List.map_cons, List.map_map]
      cases i with
      | zero =>
        simp only [List.getD_cons_zero, hts, List.mem_cons]
        simp [Option.isSome_some]
      | succ j =>
        simp only [List.getD_cons_succ, List.mem_cons]
        rw [← ih j]
        simp only [List.mem_map, Function.comp_apply]
        constructor
        · rintro (h | ⟨c, hc, he⟩)
          · omega
          · exact ⟨c, hc, by omega⟩
        · rintro ⟨c, hc, he⟩
          exact Or.inr ⟨c, hc, by omega⟩

theorem length_extractTS (ps : List PacketLayer) :
    ∀ k, (extractTS k ps).length = ps.countP (fun p => p.timestampQ.isSome) := by
  induction ps with
  | nil => intro k; rfl
  | cons p rest ih =>
    intro k
    rcases hts : p.timestampQ with _ | q <;>
      simp [extractTS, hts, List.countP_cons, ih (k + 1)]

theorem nodup_snd_extractTimestamps (ps : List PacketLayer) :
    ((extractTimestamps ps).map Prod.snd).Nodup := by
  have hp := pairwise_lt_extractTS ps 0
  have hmap : ((extractTS 0 ps).map Prod.snd).Pairwise (fun a b => a < b) :=
    List.Pairwise.map Prod.snd (fun a b h => h) hp
  exact hmap.imp Nat.ne_of_lt

/-! ### Sorting lemmas -/

theorem tsLE_trans : ∀ a b c : ℚ × Nat, tsLE a b → tsLE b c → tsLE a c := by
  intro a b c hab hbc
  simp only [tsLE, Bool.or_eq_true, Bool.and_eq_true, decide_eq_true_eq] at *
  rcases hab with h1 | ⟨h1, h1'⟩ <;> rcases hbc with h2 | ⟨h2, h2'⟩
  · exact Or.inl (lt_trans h1 h2)
  · exact Or.inl (h2 ▸ h1)
  · exact Or.inl (h1 ▸ h2)
  · exact Or.inr ⟨h1.trans h2, le_trans h1' h2'⟩

theorem tsLE_total : ∀ a b : ℚ × Nat, tsLE a b || tsLE b a := by
  intro a b
  simp only [tsLE, Bool.or_eq_true, Bool.and_eq_true, decide_eq_true_eq]
  rcases lt_trichotomy a.1 b.1 with h | h | h
  · exact Or.inl (Or.inl h)
  · rcases Nat.le_total a.2 b.2 with h2 | h2
    · exact Or.inl (Or.inr ⟨h, h2⟩)
    · exact Or.inr (Or.inr ⟨h.symm, h2⟩)
  · exact Or.inr (Or.inl h)

instance : IsTotal (ℚ × Nat) tsLEP :=
  ⟨fun a b => by
    have h := tsLE_total a b
    simp only [Bool.or_eq_true] at h
    exact h⟩

instance : IsTrans (ℚ × Nat) tsLEP :=
  ⟨fun a b c hab hbc => tsLE_trans a b c hab hbc⟩

theorem sortTs_perm (l : List (ℚ × Nat)) : List.Perm (sortTs l) l :=
  List.perm_insertionSort tsLEP l

theorem sortTs_sorted_fst (l : List (ℚ × Nat)) :
    (sortTs l).Pairwise (fun a b => a.1 ≤ b.1) := by
  have h := List.sorted_insertionSort tsLEP l
  refine h.imp ?_
  intro a b hab
  have hab' := hab
  simp only [tsLEP, tsLE, Bool.or_eq_true, Bool.and_eq_true,
    decide_eq_true_eq] at hab'
  rcases hab' with h1 | ⟨h1, -⟩
  · exact le_of_lt h1
  · exact le_of_eq h1

theorem nodup_snd_sortTs_extract (ps : List PacketLayer) :
    ((sortTs (extractTimestamps ps)).map Prod.snd).Nodup :=
  (((sortTs_perm (extractTimestamps ps)).map Prod.snd).nodup_iff).mpr
    (nodup_snd_extractTimestamps ps)

/-! ### Inner-scan lemmas: `scanBest` is min-diff-first selection -/

theorem scanBest_eq_simple (window ts1 : ℚ) (used2 : List Nat) :
    ∀ (cands : List (ℚ × Nat)) (best : Option (Nat × ℚ)),
      scanBest window ts1 used2 cands best =
        scanBestSimple ts1 (cands.filter (viable window ts1 used2)) best := by
  intro cands
  induction cands with
  | nil => intro best; rfl
  | cons c rest ih =>
    intro best
    obtain ⟨ts2, idx2⟩ := c
    by_cases hu : idx2 ∈ used2
    · have hv : viable window ts1 used2 (ts2, idx2) = false := by
        simp [viable, hu]
      simp only [scanBest, if_pos hu, List.filter_cons, hv]
      simpa using ih best
    · by_cases hw : |ts2 - ts1| ≤ window
      · have hv : viable window ts1 used2 (ts2, idx2) = true := by
          simp [viable, hu, hw]
        cases best with
        | none =>
            simp only [scanBest, if_neg hu, List.filter_cons, hv,
              scanBestSimple]
            simp [hw, ih]
        | some p =>
            obtain ⟨j0, d0⟩ := p
            simp only [scanBest, if_neg hu, List.filter_cons, hv,
              scanBestSimple]
            by_cases hlt : |ts2 - ts1| < d0
            · simp [hw, hlt, ih]
            · simp [hw, hlt, ih]
      · have hv : viable window ts1 used2 (ts2, idx2) = false := by
          simp [viable, hu, hw]
        simp only [scanBest, if_neg hu, List.filter_cons, hv]
        simp [hw, ih]

theorem minFirstPair_eq_none_iff (ts1 : ℚ) (l : List (ℚ × Nat)) :
    minFirstPair ts1 l = Option.none ↔ l = [] := by
  cases l with
  | nil => simp [minFirstPair]
  | cons c rest =>
    obtain ⟨ts2, i2⟩ := c
    simp only [minFirstPair]
    cases minFirstPair ts1 rest with
    | none => simp
    | some p =>
      obtain ⟨j, d'⟩ := p
      by_cases hle : |ts2 - ts1| ≤ d' <;> simp [hle]

theorem minFirstPair_le (ts1 : ℚ) :
    ∀ (l : List (ℚ × Nat)) (j : Nat) (d : ℚ),
      minFirstPair ts1 l = some (j, d) → ∀ c ∈ l, d ≤ |c.1 - ts1| := by
  intro l
  induction l with
  | nil => intro j d h; simp [minFirstPair] at h
  | cons hd rest ih =>
    intro j d h c hc
    obtain ⟨ts2, i2⟩ := hd
    simp only [minFirstPair] at h
    rcases hm : minFirstPair ts1 rest with _ | ⟨j', d'⟩
    · simp only [hm] at h
      have hrest : rest = [] := (minFirstPair_eq_none_iff ts1 rest).mp hm
      subst hrest
      rcases List.mem_cons.mp hc with rfl | hc
      · simp only [Option.some.injEq, Prod.mk.injEq] at h
        exact le_of_eq h.2.symm
      · simp at hc
    · simp only [hm] at h
      by_cases hle : |ts2 - ts1| ≤ d'
      · rw [if_pos hle] at h
        simp only [Option.some.injEq, Prod.mk.injEq] at h
        obtain ⟨-, rfl⟩ := h
        rcases List.mem_cons.mp hc with rfl | hc
        · exact le_refl _
        · exact le_trans hle (ih j' d' hm c hc)
      · rw [if_neg hle] at h
        simp only [Option.some.injEq, Prod.mk.injEq] at h
        obtain ⟨-, rfl⟩ := h
        rcases List.mem_cons.mp hc with rfl | hc
        · exact le_of_lt (not_le.mp hle)
        · exact ih j' d' hm c hc

theorem minFirstPair_split (ts1 : ℚ) :
    ∀ (l : List (ℚ × Nat)) (j : Nat) (d : ℚ),
      minFirstPair ts1 l = some (j, d) →
      ∃ pre ts post, l = pre ++ (ts, j) :: post ∧ d = |ts - ts1| ∧
        (∀ c ∈ pre, d < |c.1 - ts1|) ∧ (∀ c ∈ post, d ≤ |c.1 - ts1|) := by
  intro l
  induction l with
  | nil => intro j d h; simp [minFirstPair] at h
  | cons hd rest ih =>
    intro j d h
    obtain ⟨ts2, i2⟩ := hd
    simp only [minFirstPair] at h
    rcases hm : minFirstPair ts1 rest with _ | ⟨j', d'⟩
    · simp only [hm] at h
      have hrest : rest = [] := (minFirstPair_eq_none_iff ts1 rest).mp hm
      subst hrest
      simp only [Option.some.injEq, Prod.mk.injEq] at h
      obtain ⟨rfl, rfl⟩ := h
      exact ⟨[], ts2, [], rfl, rfl, by simp, by simp⟩
    · simp only [hm] at h
      by_cases hle : |ts2 - ts1| ≤ d'
      · rw [if_pos hle] at h
        simp only [Option.some.injEq, Prod.mk.injEq] at h
        obtain ⟨rfl, rfl⟩ := h
        refine ⟨[], ts2, rest, rfl, rfl, by simp, ?_⟩
        intro c hc
        exact le_trans hle (minFirstPair_le ts1 rest j' d' hm c hc)
      · rw [if_neg hle] at h
        simp only [Option.some.injEq, Prod.mk.injEq] at h
        obtain ⟨rfl, rfl⟩ := h
        obtain ⟨pre, ts, post, rfl, hd', hpre, hpost⟩ := ih j' d' hm
        refine ⟨(ts2, i2) :: pre, ts, post, rfl, hd', ?_, hpost⟩
        intro c hc
        rcases List.mem_cons.mp hc with rfl | hc
        · exact not_le.mp hle
        · exact hpre c hc

theorem scanBestSimple_some (ts1 : ℚ) :
    ∀ (l : List (ℚ × Nat)) (i0 : Nat) (d0 : ℚ),
      scanBestSimple ts1 l (some (i0, d0)) =
        match minFirstPair ts1 l with
        | Option.none => some (i0, d0)
        | some (j, d) => if d < d0 then some (j, d) else some (i0, d0) := by
  intro l
  induction l with
  | nil => intro i0 d0; rfl
  | cons c rest ih =>
    intro i0 d0
    obtain ⟨ts2, i2⟩ := c
    rcases hm : minFirstPair ts1 rest with _ | ⟨j, d'⟩
    · simp only [scanBestSimple, minFirstPair, hm, ih]
      by_cases hlt : |ts2 - ts1| < d0 <;> simp [hlt]
    · simp only [scanBestSimple, minFirstPair, hm, ih]
      by_cases hle : |ts2 - ts1| ≤ d'
      · by_cases hlt : |ts2 - ts1| < d0
        · simp [hle, hlt, not_lt.mpr hle]
        · have h1 : ¬ d' < d0 := not_lt.mpr (le_trans (not_lt.mp hlt) hle)
          simp [hle, hlt, h1]
      · have hd : d' < |ts2 - ts1| := not_le.mp hle
        by_cases hlt : |ts2 - ts1| < d0
        · simp [hle, hlt, hd, lt_trans hd hlt]
        · by_cases h2 : d' < d0 <;> simp [hle, hlt, h2]

theorem scanBestSimple_none (ts1 : ℚ) (l : List (ℚ × Nat)) :
    scanBestSimple ts1 l Option.none = minFirstPair ts1 l := by
  cases l with
  | nil => rfl
  | cons c rest =>
    obtain ⟨ts2, i2⟩ := c
    simp only [scanBestSimple, minFirstPair, scanBestSimple_some]
    rcases hm : minFirstPair ts1 rest with _ | ⟨j, d'⟩
    · simp
    · by_cases hle : |ts2 - ts1| ≤ d'
      · simp [not_lt.mpr hle, hle]
      · simp [not_le.mp hle, hle]

/-- The inner scan equals spec-side min-first selection over the viable
candidates. -/
theorem scanBest_eq_minFirst (window ts1 : ℚ) (used2 : List Nat)
    (cands : List (ℚ × Nat)) :
    scanBest window ts1 used2 cands Option.none =
      minFirstPair ts1 (cands.filter (viable window ts1 used2)) := by
  rw [scanBest_eq_simple, scanBestSimple_none]

theorem scanBest_some_props {window ts1 : ℚ} {used2 : List Nat}
    {cands : List (ℚ × Nat)} {b : Nat} {d : ℚ}
    (h : scanBest window ts1 used2 cands Option.none = some (b, d)) :
    ¬ b ∈ used2 ∧ ∃ ts, (ts, b) ∈ cands ∧ d = |ts - ts1| ∧ |ts - ts1| ≤ window := by
  rw [scanBest_eq_minFirst] at h
  obtain ⟨pre, ts, post, hsplit, hd, -, -⟩ :=
    minFirstPair_split ts1 _ b d h
  have hmem : (ts, b) ∈ cands.filter (viable window ts1 used2) := by
    rw [hsplit]; exact List.mem_append_right _ (List.mem_cons_self _ _)
  obtain ⟨hmem', hviable⟩ := List.mem_filter.mp hmem
  simp only [viable, Bool.and_eq_true, decide_eq_true_eq] at hviable
  exact ⟨hviable.1, ts, hmem', hd, hviable.2⟩

theorem scanBest_none_props {window ts1 : ℚ} {used2 : List Nat}
    {cands : List (ℚ × Nat)}
    (h : scanBest window ts1 used2 cands Option.none = Option.none) :
    ∀ c ∈ cands, ¬ c.2 ∈ used2 → ¬ (|c.1 - ts1| ≤ window) := by
  rw [scanBest_eq_minFirst, minFirstPair_eq_none_iff] at h
  intro c hc hu
  have := List.filter_eq_nil_iff.mp h c hc
  simp only [viable, Bool.and_eq_true, decide_eq_true_eq, not_and] at this
  exact this hu

/-! ### Outer-loop lemmas -/

theorem alignLoop_fst (w : ℚ) (ts2 : List (ℚ × Nat)) :
    ∀ (rem : List (ℚ × Nat)) (u : List Nat),
      (alignLoop w ts2 rem u).1.map Prod.fst = rem.map (fun c => some c.2) := by
  intro rem
  induction rem with
  | nil => intro u; rfl
  | cons c rest ih =>
    intro u
    obtain ⟨t, i⟩ := c
    rcases hs : scanBest w t u ts2 Option.none with _ | ⟨b, d⟩ <;>
      simp [alignLoop, hs, ih]

theorem alignLoop_length (w : ℚ) (ts2 : List (ℚ × Nat)) :
    ∀ (rem : List (ℚ × Nat)) (u : List Nat),
      (alignLoop w ts2 rem u).1.length = rem.length := by
  intro rem u
  have h := alignLoop_fst w ts2 rem u
  have := congrArg List.length h
  simpa using this

theorem alignLoop_fst_isSome (w : ℚ) (ts2 : List (ℚ × Nat)) :
    ∀ (rem : List (ℚ × Nat)) (u : List Nat),
      ∀ pr ∈ (alignLoop w ts2 rem u).1, pr.1.isSome = true := by
  intro rem
  induction rem with
  | nil => intro u pr hpr; simp [alignLoop] at hpr
  | cons c rest ih =>
    intro u pr hpr
    obtain ⟨t, i⟩ := c
    rcases hs : scanBest w t u ts2 Option.none with _ | ⟨b, d⟩ <;>
      simp only [alignLoop, hs] at hpr <;>
      rcases List.mem_cons.mp hpr with rfl | hpr
    · rfl
    · exact ih u pr hpr
    · rfl
    · exact ih (b :: u) pr hpr

theorem alignLoop_used_mono (w : ℚ) (ts2 : List (ℚ × Nat)) :
    ∀ (rem : List (ℚ × Nat)) (u : List Nat) (b : Nat),
      b ∈ u → b ∈ (alignLoop w ts2 rem u).2 := by
  intro rem
  induction rem with
  | nil => intro u b hb; exact hb
  | cons c rest ih =>
    intro u b hb
    obtain ⟨t, i⟩ := c
    rcases hs : scanBest w t u ts2 Option.none with _ | ⟨b', d'⟩ <;>
      simp only [alignLoop, hs]
    · exact ih u b hb
    · exact ih (b' :: u) b (List.mem_cons_of_mem _ hb)

theorem alignLoop_used_sub (w : ℚ) (ts2 : List (ℚ × Nat)) :
    ∀ (rem : List (ℚ × Nat)) (u : List Nat) (b : Nat),
      b ∈ (alignLoop w ts2 rem u).2 → b ∈ u ∨ b ∈ ts2.map Prod.snd := by
  intro rem
  induction rem with
  | nil => intro u b hb; exact Or.inl hb
  | cons c rest ih =>
    intro u b hb
    obtain ⟨t, i⟩ := c
    rcases hs : scanBest w t u ts2 Option.none with _ | ⟨b', d'⟩
    · simp only [alignLoop, hs] at hb
      exact ih u b hb
    · simp only [alignLoop, hs] at hb
      rcases ih (b' :: u) b hb with hmem | hmem
      · rcases List.mem_cons.mp hmem with rfl | hmem
        · obtain ⟨-, ts, hts, -, -⟩ := scanBest_some_props hs
          exact Or.inr (List.mem_map.mpr ⟨(ts, b), hts, rfl⟩)
        · exact Or.inl hmem
      · exact Or.inr hmem

theorem alignLoop_count_snd (w : ℚ) (ts2 : List (ℚ × Nat)) :
    ∀ (rem : List (ℚ × Nat)) (u : List Nat) (b : Nat),
      ((alignLoop w ts2 rem u).1.countP fun pr => decide (pr.2 = some b)) =
        if b ∈ (alignLoop w ts2 rem u).2 ∧ ¬ b ∈ u then 1 else 0 := by
  intro rem
  induction rem with
  | nil =>
    intro u b
    rw [if_neg (fun h => h.2 h.1)]
    rfl
  | cons c rest ih =>
    intro u b
    obtain ⟨t, i⟩ := c
    rcases hs : scanBest w t u ts2 Option.none with _ | ⟨b', d'⟩
    · simp only [alignLoop, hs, List.countP_cons]
      have hhead : (decide ((Option.none : Option Nat) = some b)) = false := by simp
      rw [hhead, ih u b]
      simp
    · have hprops := scanBest_some_props hs
      simp only [alignLoop, hs, List.countP_cons]
      by_cases hb : b = b'
      · subst hb
        have hnotin : ¬ (b ∈ (alignLoop w ts2 rest (b :: u)).2 ∧ ¬ b ∈ b :: u) :=
          fun h => h.2 (List.mem_cons_self _ _)
        have hfin : b ∈ (alignLoop w ts2 rest (b :: u)).2 :=
          alignLoop_used_mono w ts2 rest (b :: u) b (List.mem_cons_self _ _)
        rw [ih (b :: u) b, if_neg hnotin, if_pos (And.intro hfin hprops.1)]
        simp
      · have hba : b' ≠ b := fun h => hb h.symm
        have hhead : (decide ((some b' : Option Nat) = some b)) = false := by
          simp [hba]
        rw [hhead, ih (b' :: u) b]
        have hiff : (b ∈ (alignLoop w ts2 rest (b' :: u)).2 ∧ ¬ b ∈ b' :: u) ↔
            (b ∈ (alignLoop w ts2 rest (b' :: u)).2 ∧ ¬ b ∈ u) := by
          constructor
          · rintro ⟨h1, h2⟩
            exact ⟨h1, fun hmem => h2 (List.mem_cons_of_mem _ hmem)⟩
          · rintro ⟨h1, h2⟩
            refine ⟨h1, fun hmem => ?_⟩
            rcases List.mem_cons.mp hmem with rfl | hmem
            · exact hb rfl
            · exact h2 hmem
        rw [if_congr hiff rfl rfl]
        simp

/-! ### Self-alignment lemmas (identity comparison) -/

theorem minFirstPair_nonneg (ts1 : ℚ) (l : List (ℚ × Nat)) (j : Nat) (d : ℚ)
    (h : minFirstPair ts1 l = some (j, d)) : 0 ≤ d := by
  obtain ⟨pre, ts, post, -, hd, -, -⟩ := minFirstPair_split ts1 l j d h
  rw [hd]
  exact abs_nonneg _

theorem scanBest_self (w t : ℚ) (u : List Nat) (pre post : List (ℚ × Nat))
    (i : Nat) (hw : 0 ≤ w) (hpre : ∀ c ∈ pre, c.2 ∈ u) (hi : ¬ i ∈ u) :
    scanBest w t u (pre ++ (t, i) :: post) Option.none = some (i, 0) := by
  rw [scanBest_eq_minFirst]
  have hfpre : pre.filter (viable w t u) = [] :=
    List.filter_eq_nil_iff.mpr fun c hc => by simp [viable, hpre c hc]
  rw [List.filter_append, hfpre, List.nil_append, List.filter_cons]
  have hv : viable w t u (t, i) = true := by
    simp [viable, hi, sub_self, abs_zero, hw]
  rw [if_pos hv]
  simp only [minFirstPair]
  rcases hm : minFirstPair t (post.filter (viable w t u)) with _ | ⟨j, d'⟩
  · simp [hm, sub_self, abs_zero]
  · have hd' : 0 ≤ d' := minFirstPair_nonneg t _ j d' hm
    have h0 : |t - t| ≤ d' := by simpa [sub_self, abs_zero] using hd'
    simp only [hm, h0, sub_self, abs_zero, if_pos]
    simp [hm, h0, sub_self, abs_zero]
    intro hlt
    exact absurd hlt (not_lt.mpr hd')

theorem alignLoop_self (w : ℚ) (hw : 0 ≤ w) (L : List (ℚ × Nat))
    (hnd : (L.map Prod.snd).Nodup) :
    ∀ (rem pre : List (ℚ × Nat)) (u : List Nat), L = pre ++ rem →
      (∀ b, b ∈ u ↔ b ∈ pre.map Prod.snd) →
      (alignLoop w L rem u).1 = rem.map (fun c => (some c.2, some c.2)) ∧
      ∀ b ∈ L.map Prod.snd, b ∈ (alignLoop w L rem u).2 := by
  intro rem
  induction rem with
  | nil =>
    intro pre u hL hu
    refine ⟨rfl, fun b hb => ?_⟩
    have hLp : L = pre := by simpa using hL
    rw [hLp] at hb
    exact (hu b).mpr hb
  | cons c rest ih =>
    intro pre u hL hu
    obtain ⟨t, i⟩ := c
    have hpre : ∀ cc ∈ pre, cc.2 ∈ u :=
      fun cc hc => (hu cc.2).mpr (List.mem_map_of_mem _ hc)
    have hiu : ¬ i ∈ u := by
      intro hmem
      have hip : i ∈ pre.map Prod.snd := (hu i).mp hmem
      have hnd' := hnd
      rw [hL, List.map_append, List.map_cons] at hnd'
      rcases List.nodup_append.mp hnd' with ⟨-, -, hdisj⟩
      exact hdisj hip (List.mem_cons_self _ _)
    have hscan : scanBest w t u L Option.none = some (i, 0) := by
      rw [hL]
      exact scanBest_self w t u pre rest i hw hpre hiu
    simp only [alignLoop, hscan]
    have hrec := ih (pre ++ [(t, i)]) (i :: u)
      (by rw [hL, List.append_assoc]; rfl)
      (by
        intro b
        simp only [List.mem_cons, hu b, List.map_append, List.mem_append,
          List.map_cons, List.map_nil, List.mem_singleton]
        tauto)
    refine ⟨?_, fun b hb => hrec.2 b hb⟩
    simp [hrec.1]

theorem alignCore_self (w : ℚ) (hw : 0 ≤ w) (pk : List PacketLayer) :
    alignCore w pk pk =
      (sortTs (extractTimestamps pk)).map (fun c => (some c.2, some c.2)) := by
  have h := alignLoop_self w hw (sortTs (extractTimestamps pk))
    (nodup_snd_sortTs_extract pk) (sortTs (extractTimestamps pk)) [] []
    (List.nil_append _).symm (by simp)
  simp only [alignCore]
  rw [h.1]
  have hpart : ((sortTs (extractTimestamps pk)).filterMap fun c =>
      if c.2 ∈ (alignLoop w (sortTs (extractTimestamps pk))
          (sortTs (extractTimestamps pk)) []).2 then Option.none
      else some ((Option.none : Option Nat), some c.2)) = [] := by
    refine List.filterMap_eq_nil_iff.mpr fun c hc => ?_
    rw [if_pos (h.2 c.2 (List.mem_map_of_mem _ hc))]
  rw [hpart, List.append_nil]

/-! ### Identity comparison of packets -/

theorem classifyField_self (ignore : List String)
    (f : List (String × PyVal)) (nm : String) :
    classifyField ignore f f nm = Option.none := by
  by_cases hig : nm ∈ ignore
  · simp [classifyField, hig]
  · simp [classifyField, hig]

theorem compare_layer_fields_self (ignore : List String)
    (f : List (String × PyVal)) : compare_layer_fields ignore f f = [] :=
  List.filterMap_eq_nil_iff.mpr fun nm _ => classifyField_self ignore f nm

theorem compare_layers_self (ignore : List String) (p : PacketLayer) :
    compare_layers ignore p p = [] := by
  refine List.filterMap_eq_nil_iff.mpr fun lname h => ?_
  rcases hlast : lastWithName p.sublayers lname with _ | l
  · simp [hlast]
  · simp [hlast, compare_layer_fields_self]

theorem compare_packets_self_unchanged (ignore : List String) (p : PacketLayer)
    (pid : Nat) :
    (compare_packets ignore p p pid).diff_type = DiffType.unchanged := by
  simp [compare_packets, compare_layers_self]


/-! ### Flattened-field lemmas -/

theorem get_all_fields_flat_mk (n : String) (f : List (String × PyVal))
    (subs : List PacketLayer) :
    get_all_fields_flat (PacketLayer.mk n f subs) = flatGo f subs := by
  simp [get_all_fields_flat]

theorem flatGo_congr (nm : String) :
    ∀ (subs : List PacketLayer) (a b : List (String × PyVal)),
      (∀ k, k ≠ nm → dictGet a k = dictGet b k) →
      ∀ k, k ≠ nm → dictGet (flatGo a subs) k = dictGet (flatGo b subs) k := by
  intro subs
  induction subs with
  | nil => intro a b h k hk; exact h k hk
  | cons sl rest ih =>
    intro a b h k hk
    simp only [flatGo]
    exact ih _ _ (dictGet_dictUpdate_congr nm _ a b h) k hk

theorem dictGet_append_single (fs : List (String × PyVal)) (nm k : String)
    (v : PyVal) (hk : k ≠ nm) :
    dictGet (fs ++ [(nm, v)]) k = dictGet fs k := by
  have h1 : ([(nm, v)] : List (String × PyVal)).lookup k = Option.none := by
    rw [lookup_cons_eq, if_neg hk, List.lookup_nil]
  simp [dictGet, List.lookup_append, h1]

/-- Two packets that differ only in one root-level field binding have
`get`-identical flattened field dicts away from that name. -/
theorem flat_agree_of_root (n : String) (subs : List PacketLayer)
    (fs : List (String × PyVal)) (nm : String) (v1 v2 : PyVal) :
    ∀ k, k ≠ nm →
      dictGet (get_all_fields_flat (PacketLayer.mk n (fs ++ [(nm, v1)]) subs)) k =
      dictGet (get_all_fields_flat (PacketLayer.mk n (fs ++ [(nm, v2)]) subs)) k := by
  intro k hk
  rw [get_all_fields_flat_mk, get_all_fields_flat_mk]
  refine flatGo_congr nm subs _ _ ?_ k hk
  intro k' hk'
  rw [dictGet_append_single fs nm k' v1 hk', dictGet_append_single fs nm k' v2 hk']

/-! ### Similarity lemmas -/

theorem similarityCore_bounds (ignore : List String) (p1 p2 : PacketLayer) :
    0 ≤ similarityCore ignore p1 p2 ∧ similarityCore ignore p1 p2 ≤ 1 := by
  unfold similarityCore
  by_cases h : simUnion (simFields ignore p1) (simFields ignore p2) = []
  · rw [if_pos h]
    exact ⟨zero_le_one, le_refl 1⟩
  · rw [if_neg h]
    have hlen : 0 < ((simUnion (simFields ignore p1) (simFields ignore p2)).length : ℚ) := by
      have := List.length_pos.mpr h
      exact_mod_cast this
    constructor
    · exact div_nonneg (by positivity) hlen.le
    · rw [div_le_one hlen]
      exact_mod_cast List.countP_le_length _

theorem not_mem_ignore_of_mem_simUnion {ignore : List String}
    {p1 p2 : PacketLayer} {k : String}
    (hk : k ∈ simUnion (simFields ignore p1) (simFields ignore p2)) :
    ¬ k ∈ ignore := by
  have hk' := List.mem_dedup.mp hk
  rcases List.mem_append.mp hk' with h1 | h1
  · have := @pred_of_mem_keys_filter (fun s => decide (¬ s ∈ ignore)) _ _ h1
    simpa using this
  · have := @pred_of_mem_keys_filter (fun s => decide (¬ s ∈ ignore)) _ _ h1
    simpa using this

theorem dictGet_simFields (ignore : List String) (p : PacketLayer)
    (k : String) (hk : ¬ k ∈ ignore) :
    dictGet (simFields ignore p) k = dictGet (get_all_fields_flat p) k :=
  dictGet_filter (fun s => decide (¬ s ∈ ignore)) _ k (by simpa using hk)

/-- If the two flattened dicts agree on every non-ignored key under `get`,
the similarity score is exactly 1. -/
theorem similarityCore_eq_one_of_agree (ignore : List String)
    (p1 p2 : PacketLayer)
    (hagree : ∀ k, ¬ k ∈ ignore →
      dictGet (get_all_fields_flat p1) k = dictGet (get_all_fields_flat p2) k) :
    similarityCore ignore p1 p2 = 1 := by
  unfold similarityCore
  by_cases h : simUnion (simFields ignore p1) (simFields ignore p2) = []
  · rw [if_pos h]
  · rw [if_neg h]
    have hall : ∀ k ∈ simUnion (simFields ignore p1) (simFields ignore p2),
        (decide (dictGet (simFields ignore p1) k =
          dictGet (simFields ignore p2) k)) = true := by
      intro k hk
      have hnig : ¬ k ∈ ignore := not_mem_ignore_of_mem_simUnion hk
      rw [dictGet_simFields ignore p1 k hnig, dictGet_simFields ignore p2 k hnig]
      exact decide_eq_true (hagree k hnig)
    rw [List.countP_eq_length.mpr hall]
    have hlen : ((simUnion (simFields ignore p1) (simFields ignore p2)).length : ℚ) ≠ 0 := by
      have := List.length_pos.mpr h
      positivity
    rw [div_self hlen]

/-! ### Layer comparison with identical sublayers -/

theorem compare_layers_same_sublayers (ignore : List String)
    (p1 p2 : PacketLayer) (hsub : p1.sublayers = p2.sublayers) :
    compare_layers ignore p1 p2 = [] := by
  refine List.filterMap_eq_nil_iff.mpr fun lname h => ?_
  simp only [compare_layers, hsub]
  rcases hlast : lastWithName p2.sublayers lname with _ | l
  · simp [hlast]
  · simp [hlast, compare_layer_fields_self]

/-! ### Field-classification lemmas -/

theorem classifyField_fst {ignore : List String}
    {f1 f2 : List (String × PyVal)} {nm k : String} {dt : DiffType}
    (h : classifyField ignore f1 f2 nm = some (k, dt)) : k = nm := by
  unfold classifyField at h
  by_cases hig : nm ∈ ignore
  · simp [hig] at h
  · simp only [hig, if_false] at h
    split_ifs at h <;> simp_all

theorem mem_compare_layer_fields {ignore : List String}
    {f1 f2 : List (String × PyVal)} {nm : String} {dt : DiffType} :
    (nm, dt) ∈ compare_layer_fields ignore f1 f2 ↔
      nm ∈ (f1.map Prod.fst ++ f2.map Prod.fst) ∧
      classifyField ignore f1 f2 nm = some (nm, dt) := by
  constructor
  · intro h
    obtain ⟨a, ha, hcl⟩ := List.mem_filterMap.mp h
    have hanm : nm = a := classifyField_fst hcl
    subst hanm
    exact ⟨List.mem_dedup.mp ha, hcl⟩
  · rintro ⟨hmem, hcl⟩
    exact List.mem_filterMap.mpr ⟨nm, List.mem_dedup.mpr hmem, hcl⟩

theorem hasKey_false_iff (d : List (String × PyVal)) (k : String) :
    hasKey d k = false ↔ ¬ k ∈ d.map Prod.fst := by
  rw [← hasKey_iff_mem_keys]
  cases hasKey d k <;> simp

theorem dictGet_eq_none_of_hasKey_false {d : List (String × PyVal)}
    {k : String} (h : hasKey d k = false) : dictGet d k = PyVal.none :=
  dictGet_eq_none_of_not_mem ((hasKey_false_iff d k).mp h)

/-! ### Alignment bookkeeping helpers -/

theorem countP_snd_eq_of_nodup (l : List (ℚ × Nat))
    (hnd : (l.map Prod.snd).Nodup) (i : Nat) :
    (l.countP fun c => decide (c.2 = i)) =
      if i ∈ l.map Prod.snd then 1 else 0 := by
  induction l with
  | nil => simp
  | cons c rest ih =>
    rw [List.map_cons, List.nodup_cons] at hnd
    rw [List.countP_cons, ih hnd.2, List.map_cons]
    by_cases h : c.2 = i
    · subst h
      rw [if_neg (fun hm => hnd.1 hm), if_pos (List.mem_cons_self _ _)]
      simp
    · have hiff : (i ∈ c.2 :: rest.map Prod.snd) ↔ i ∈ rest.map Prod.snd := by
        rw [List.mem_cons]
        constructor
        · rintro (he | hm)
          · exact absurd he.symm h
          · exact hm
        · exact Or.inr
      rw [if_congr hiff rfl rfl]
      simp [h]

theorem filterMap_if_none (R2 : List Nat) (l : List (ℚ × Nat)) :
    (l.filterMap fun c =>
      if c.2 ∈ R2 then Option.none
      else some ((Option.none : Option Nat), some c.2)) =
    (l.filter fun c => decide (¬ c.2 ∈ R2)).map
      fun c => ((Option.none : Option Nat), some c.2) := by
  induction l with
  | nil => rfl
  | cons c rest ih =>
    by_cases h : c.2 ∈ R2
    · rw [List.filterMap_cons, List.filter_cons]
      simp [h, ih]
    · rw [List.filterMap_cons, List.filter_cons]
      simp [h, ih]

/-- The two timestamp lists fed into the loops, named for reuse. -/
theorem alignCore_decomp (w : ℚ) (p1 p2 : List PacketLayer) :
    alignCore w p1 p2 =
      (alignLoop w (sortTs (extractTimestamps p2))
        (sortTs (extractTimestamps p1)) []).1 ++
      ((sortTs (extractTimestamps p2)).filter fun c =>
        decide (¬ c.2 ∈ (alignLoop w (sortTs (extractTimestamps p2))
          (sortTs (extractTimestamps p1)) []).2)).map
        (fun c => ((Option.none : Option Nat), some c.2)) := by
  simp only [alignCore]
  rw [filterMap_if_none]

theorem mem_snd_sortTs_extract (ps : List PacketLayer) (i : Nat) :
    i ∈ (sortTs (extractTimestamps ps)).map Prod.snd ↔
      ((ps.getD i defaultPacket).timestampQ).isSome = true := by
  rw [((sortTs_perm (extractTimestamps ps)).map Prod.snd).mem_iff]
  exact mem_snd_extractTS ps i

theorem alignCore_count_fst (w : ℚ) (p1 p2 : List PacketLayer) (i1 : Nat) :
    ((alignCore w p1 p2).countP fun pr => decide (pr.1 = some i1)) =
      if ((p1.getD i1 defaultPacket).timestampQ).isSome = true then 1 else 0 := by
  rw [alignCore_decomp, List.countP_append]
  have h2 : ((((sortTs (extractTimestamps p2)).filter fun c =>
      decide (¬ c.2 ∈ (alignLoop w (sortTs (extractTimestamps p2))
        (sortTs (extractTimestamps p1)) []).2)).map
      fun c => ((Option.none : Option Nat), some c.2)).countP
      fun pr => decide (pr.1 = some i1)) = 0 := by
    rw [List.countP_map]
    exact List.countP_eq_zero.mpr fun c hc => by simp
  rw [h2, Nat.add_zero]
  have e1 : (((alignLoop w (sortTs (extractTimestamps p2))
      (sortTs (extractTimestamps p1)) []).1).countP
      fun pr => decide (pr.1 = some i1)) =
      ((((alignLoop w (sortTs (extractTimestamps p2))
        (sortTs (extractTimestamps p1)) []).1).map Prod.fst).countP
        fun o => decide (o = some i1)) := by
    rw [List.countP_map]
    exact List.countP_congr fun x hx => by simp [Function.comp]
  rw [e1, alignLoop_fst, List.countP_map]
  have e2 : (((sortTs (extractTimestamps p1))).countP
      ((fun o => decide (o = some i1)) ∘ fun c => some c.2)) =
      (((sortTs (extractTimestamps p1))).countP fun c => decide (c.2 = i1)) :=
    List.countP_congr fun c hc => by simp [Function.comp]
  rw [e2, countP_snd_eq_of_nodup _ (nodup_snd_sortTs_extract p1) i1,
    if_congr (mem_snd_sortTs_extract p1 i1) rfl rfl]

theorem alignCore_count_snd (w : ℚ) (p1 p2 : List PacketLayer) (i2 : Nat) :
    ((alignCore w p1 p2).countP fun pr => decide (pr.2 = some i2)) =
      if ((p2.getD i2 defaultPacket).timestampQ).isSome = true then 1 else 0 := by
  rw [alignCore_decomp, List.countP_append]
  have hloop := alignLoop_count_snd w (sortTs (extractTimestamps p2))
    (sortTs (extractTimestamps p1)) [] i2
  have hpart : ((((sortTs (extractTimestamps p2)).filter fun c =>
      decide (¬ c.2 ∈ (alignLoop w (sortTs (extractTimestamps p2))
        (sortTs (extractTimestamps p1)) []).2)).map
      fun c => ((Option.none : Option Nat), some c.2)).countP
      fun pr => decide (pr.2 = some i2)) =
      ((sortTs (extractTimestamps p2)).countP fun c =>
        (decide (c.2 = i2) && decide (¬ c.2 ∈ (alignLoop w
          (sortTs (extractTimestamps p2))
          (sortTs (extractTimestamps p1)) []).2))) := by
    rw [List.countP_map, List.countP_filter]
    exact List.countP_congr fun c hc => by simp [Function.comp]
  rw [hpart, hloop]
  by_cases hin : i2 ∈ (alignLoop w (sortTs (extractTimestamps p2))
      (sortTs (extractTimestamps p1)) []).2
  · have hts : i2 ∈ (sortTs (extractTimestamps p2)).map Prod.snd := by
      rcases alignLoop_used_sub w (sortTs (extractTimestamps p2))
        (sortTs (extractTimestamps p1)) [] i2 hin with h | h
      · simp at h
      · exact h
    rw [if_pos ⟨hin, by simp⟩,
      if_pos ((mem_snd_sortTs_extract p2 i2).mp hts)]
    have hzero : ((sortTs (extractTimestamps p2)).countP fun c =>
        (decide (c.2 = i2) && decide (¬ c.2 ∈ (alignLoop w
          (sortTs (extractTimestamps p2))
          (sortTs (extractTimestamps p1)) []).2))) = 0 := by
      refine List.countP_eq_zero.mpr fun c hc => ?_
      by_cases he : c.2 = i2
      · subst he
        simp [hin]
      · simp [he]
    rw [hzero]
  · rw [if_neg (fun h => hin h.1)]
    have hcongr : ((sortTs (extractTimestamps p2)).countP fun c =>
        (decide (c.2 = i2) && decide (¬ c.2 ∈ (alignLoop w
          (sortTs (extractTimestamps p2))
          (sortTs (extractTimestamps p1)) []).2))) =
        ((sortTs (extractTimestamps p2)).countP fun c => decide (c.2 = i2)) := by
      refine List.countP_congr fun c hc => ?_
      by_cases he : c.2 = i2
      · subst he
        simp [hin]
      · simp [he]
    rw [hcongr, countP_snd_eq_of_nodup _ (nodup_snd_sortTs_extract p2) i2,
      if_congr (mem_snd_sortTs_extract p2 i2) rfl rfl]
    simp

theorem alignCore_length_eq (w : ℚ) (p1 p2 : List PacketLayer) :
    (alignCore w p1 p2).length =
      p1.countP (fun p => p.timestampQ.isSome) +
      (alignCore w p1 p2).countP (fun pr => pr.1.isNone) := by
  rw [alignCore_decomp, List.length_append, List.countP_append]
  have hlooplen : ((alignLoop w (sortTs (extractTimestamps p2))
      (sortTs (extractTimestamps p1)) []).1).length =
      (sortTs (extractTimestamps p1)).length :=
    alignLoop_length w _ _ []
  have hT1len : (sortTs (extractTimestamps p1)).length =
      p1.countP (fun p => p.timestampQ.isSome) := by
    rw [(sortTs_perm (extractTimestamps p1)).length_eq]
    exact length_extractTS p1 0
  have hloop0 : (((alignLoop w (sortTs (extractTimestamps p2))
      (sortTs (extractTimestamps p1)) []).1).countP
      fun pr => pr.1.isNone) = 0 := by
    refine List.countP_eq_zero.mpr fun pr hpr => ?_
    have := alignLoop_fst_isSome w _ _ [] pr hpr
    rcases h : pr.1 with _ | v
    · rw [h] at this
      simp at this
    · simp
  have hpartall : ((((sortTs (extractTimestamps p2)).filter fun c =>
      decide (¬ c.2 ∈ (alignLoop w (sortTs (extractTimestamps p2))
        (sortTs (extractTimestamps p1)) []).2)).map
      fun c => ((Option.none : Option Nat), some c.2)).countP
      fun pr => pr.1.isNone) =
      (((sortTs (extractTimestamps p2)).filter fun c =>
        decide (¬ c.2 ∈ (alignLoop w (sortTs (extractTimestamps p2))
          (sortTs (extractTimestamps p1)) []).2)).map
        fun c => ((Option.none : Option Nat), some c.2)).length := by
    refine List.countP_eq_length.mpr fun pr hpr => ?_
    obtain ⟨c, -, rfl⟩ := List.mem_map.mp hpr
    rfl
  rw [hloop0, hpartall, hlooplen, hT1len]
  omega

theorem alignCore_ordering (w : ℚ) (p1 p2 : List PacketLayer) :
    ∃ k, (((alignCore w p1 p2).take k).all fun pr => pr.1.isSome) = true ∧
      (((alignCore w p1 p2).drop k).all
        fun pr => pr.1.isNone && pr.2.isSome) = true := by
  rw [alignCore_decomp]
  refine ⟨((alignLoop w (sortTs (extractTimestamps p2))
    (sortTs (extractTimestamps p1)) []).1).length, ?_, ?_⟩
  · rw [List.take_left, List.all_eq_true]
    exact fun pr hpr => alignLoop_fst_isSome w _ _ [] pr hpr
  · rw [List.drop_left, List.all_eq_true]
    intro pr hpr
    obtain ⟨c, -, rfl⟩ := List.mem_map.mp hpr
    rfl

theorem alignCore_entry_shape (w : ℚ) (p1 p2 : List PacketLayer) :
    ∀ pr ∈ alignCore w p1 p2,
      pr.1.isSome = true ∨ (pr.1 = Option.none ∧ pr.2.isSome = true) := by
  rw [alignCore_decomp]
  intro pr hpr
  rcases List.mem_append.mp hpr with h | h
  · exact Or.inl (alignLoop_fst_isSome w _ _ [] pr h)
  · obtain ⟨c, -, rfl⟩ := List.mem_map.mp h
    exact Or.inr ⟨rfl, rfl⟩

theorem compareCore_diff_cases (w : ℚ) (ign : List String)
    (p1 p2 : List PacketLayer) :
    ∀ d ∈ (compareCore w ign p1 p2).packet_diffs,
      ∃ i e, e ∈ alignCore w p1 p2 ∧ d = diffOfAlignment ign p1 p2 i e := by
  intro d hd
  simp only [compareCore] at hd
  obtain ⟨ie, hie, rfl⟩ := List.mem_map.mp hd
  obtain ⟨i, e⟩ := ie
  exact ⟨i, e, (List.of_mem_zip hie).2, rfl⟩

theorem filter_split {α : Type} (p : α → Bool) :
    ∀ (l l1' l2' : List α) (x : α), l.filter p = l1' ++ x :: l2' →
      ∃ l1 l2, l = l1 ++ x :: l2 ∧ l1.filter p = l1' ∧ l2.filter p = l2' := by
  intro l
  induction l with
  | nil => intro l1' l2' x h; simp at h
  | cons a rest ih =>
    intro l1' l2' x h
    by_cases hp : p a = true
    · rw [List.filter_cons_of_pos hp] at h
      cases l1' with
      | nil =>
        rw [List.nil_append] at h
        obtain ⟨rfl, hrest⟩ := List.cons_eq_cons.mp h
        exact ⟨[], rest, rfl, rfl, hrest⟩
      | cons b bs =>
        rw [List.cons_append] at h
        obtain ⟨rfl, hrest⟩ := List.cons_eq_cons.mp h
        obtain ⟨l1, l2, rfl, hf1, hf2⟩ := ih bs l2' x hrest
        exact ⟨a :: l1, l2, rfl, by rw [List.filter_cons_of_pos hp, hf1], hf2⟩
    · rw [List.filter_cons_of_neg hp] at h
      obtain ⟨l1, l2, rfl, hf1, hf2⟩ := ih l1' l2' x h
      exact ⟨a :: l1, l2, rfl, by rw [List.filter_cons_of_neg hp, hf1], hf2⟩

/-- Full characterization of the inner scan when it selects a candidate:
the selected candidate is unused, within the window, achieves the minimum
viable difference, and is the first candidate to achieve it. -/
theorem scanBest_some_char {window ts1 : ℚ} {used2 : List Nat}
    {cands : List (ℚ × Nat)} {b : Nat} {d : ℚ}
    (h : scanBest window ts1 used2 cands Option.none = some (b, d)) :
    ∃ pre ts post, cands = pre ++ (ts, b) :: post ∧ ¬ b ∈ used2 ∧
      d = |ts - ts1| ∧ d ≤ window ∧
      (∀ c ∈ pre, ¬ c.2 ∈ used2 → |c.1 - ts1| ≤ window → d < |c.1 - ts1|) ∧
      (∀ c ∈ post, ¬ c.2 ∈ used2 → |c.1 - ts1| ≤ window → d ≤ |c.1 - ts1|) := by
  rw [scanBest_eq_minFirst] at h
  obtain ⟨pre', ts, post', hsplit, hd, hpre', hpost'⟩ :=
    minFirstPair_split ts1 _ b d h
  obtain ⟨pre, post, hl, hfpre, hfpost⟩ :=
    filter_split (viable window ts1 used2) cands pre' post' (ts, b) hsplit
  have hviable : viable window ts1 used2 (ts, b) = true := by
    have hmem : (ts, b) ∈ cands.filter (viable window ts1 used2) := by
      rw [hsplit]
      exact List.mem_append_right _ (List.mem_cons_self _ _)
    exact (List.mem_filter.mp hmem).2
  simp only [viable, Bool.and_eq_true, decide_eq_true_eq] at hviable
  refine ⟨pre, ts, post, hl, hviable.1, hd, hd ▸ hviable.2, ?_, ?_⟩
  · intro c hc hcu hcw
    have hcf : c ∈ pre.filter (viable window ts1 used2) :=
      List.mem_filter.mpr ⟨hc, by simp [viable, hcu, hcw]⟩
    rw [hfpre] at hcf
    exact hpre' c hcf
  · intro c hc hcu hcw
    have hcf : c ∈ post.filter (viable window ts1 used2) :=
      List.mem_filter.mpr ⟨hc, by simp [viable, hcu, hcw]⟩
    rw [hfpost] at hcf
    exact hpost' c hcf

theorem dictGet_ne_none_of_mem {d : List (String × PyVal)}
    (hnf : ∀ kv ∈ d, kv.2 ≠ PyVal.none) {k : String}
    (hk : k ∈ d.map Prod.fst) : dictGet d k ≠ PyVal.none := by
  have hsome : (d.lookup k).isSome = true := by
    rw [← hasKey_iff_mem_keys] at hk
    exact hk
  obtain ⟨v, hv⟩ := Option.isSome_iff_exists.mp hsome
  obtain ⟨l1, l2, rfl, -⟩ := List.lookup_eq_some_iff.mp hv
  have hvmem : ((k, v) : String × PyVal) ∈ l1 ++ (k, v) :: l2 :=
    List.mem_append_right _ (List.mem_cons_self _ _)
  have hvne := hnf (k, v) hvmem
  simp only [dictGet, hv]
  exact hvne

/-! ### The claims -/

/-- C1: `align_packets` emits every timestamped capture-1 index in exactly
one pair's first slot and every timestamped capture-2 index in exactly one
(hence at most one) pair's second slot; non-timestamped indices appear in
none.  The number of pairs equals (count of capture-1 timestamped packets)
plus (count of capture-2-only entries, the unmatched ones emitted as
`(None, index2)`), and all capture-1-driven entries precede all
capture-2-only entries. -/
theorem claim_C1 (self : PacketDiffer) (packets1 packets2 : List PacketLayer) :
    (∀ i1 : Nat, ((align_packets self packets1 packets2).countP
        fun pr => decide (pr.1 = some i1)) =
      if ((packets1.getD i1 defaultPacket).timestampQ).isSome = true
      then 1 else 0) ∧
    (∀ i2 : Nat, ((align_packets self packets1 packets2).countP
        fun pr => decide (pr.2 = some i2)) =
      if ((packets2.getD i2 defaultPacket).timestampQ).isSome = true
      then 1 else 0) ∧
    (align_packets self packets1 packets2).length =
      packets1.countP (fun p => p.timestampQ.isSome) +
      (align_packets self packets1 packets2).countP (fun pr => pr.1.isNone) ∧
    ∃ k, (((align_packets self packets1 packets2).take k).all
        fun pr => pr.1.isSome) = true ∧
      (((align_packets self packets1 packets2).drop k).all
        fun pr => pr.1.isNone && pr.2.isSome) = true :=
  ⟨fun i1 => alignCore_count_fst self.time_window packets1 packets2 i1,
   fun i2 => alignCore_count_snd self.time_window packets1 packets2 i2,
   alignCore_length_eq self.time_window packets1 packets2,
   alignCore_ordering self.time_window packets1 packets2⟩

/-- C2: `align_packets` walks capture-1's timestamped packets in ascending
timestamp order (the loop consumes the lexicographically sorted list) and
each step selects, via `scanBest`, the not-yet-used capture-2 candidate
with minimum absolute timestamp difference provided it is ≤ `time_window`
(ties going to the first candidate in sorted order), emitting
`(index1, None)` when no candidate is in the window; on the spec's
Example 5 (capture-1 at 1.0 and 1.05, capture-2 at 1.02, window 0.5) the
packet at 1.0 is matched and the one at 1.05 is unmatched. -/
theorem claim_C2 :
    (∀ (window ts1 : ℚ) (used2 : List Nat) (cands : List (ℚ × Nat)),
      (scanBest window ts1 used2 cands Option.none = Option.none →
        ∀ c ∈ cands, ¬ c.2 ∈ used2 → ¬ (|c.1 - ts1| ≤ window)) ∧
      (∀ b d, scanBest window ts1 used2 cands Option.none = some (b, d) →
        ∃ pre ts post, cands = pre ++ (ts, b) :: post ∧ ¬ b ∈ used2 ∧
          d = |ts - ts1| ∧ d ≤ window ∧
          (∀ c ∈ pre, ¬ c.2 ∈ used2 → |c.1 - ts1| ≤ window →
            d < |c.1 - ts1|) ∧
          (∀ c ∈ post, ¬ c.2 ∈ used2 → |c.1 - ts1| ≤ window →
            d ≤ |c.1 - ts1|))) ∧
    (∀ (self : PacketDiffer) (p1 p2 : List PacketLayer),
      (sortTs (extractTimestamps p1)).Pairwise (fun a b => a.1 ≤ b.1) ∧
      align_packets self p1 p2 =
        (alignLoop self.time_window (sortTs (extractTimestamps p2))
          (sortTs (extractTimestamps p1)) []).1 ++
        (sortTs (extractTimestamps p2)).filterMap (fun c =>
          if c.2 ∈ (alignLoop self.time_window (sortTs (extractTimestamps p2))
              (sortTs (extractTimestamps p1)) []).2 then Option.none
          else some (Option.none, some c.2))) ∧
    alignCore (1/2) [tsPacket 1, tsPacket (21/20)] [tsPacket (51/50)] =
      [(some 0, some 0), (some 1, Option.none)] := by
  refine ⟨?_, ?_, ?_⟩
  · intro window ts1 used2 cands
    exact ⟨fun h => scanBest_none_props h, fun b d h => scanBest_some_char h⟩
  · intro self p1 p2
    exact ⟨sortTs_sorted_fst _, rfl⟩
  · norm_num [alignCore, extractTimestamps, extractTS, tsPacket,
      PacketLayer.timestampQ, PacketLayer.fields, dictGet, lookup_cons_eq,
      sortTs, tsLEP, tsLE, alignLoop, scanBest, List.insertionSort,
      List.orderedInsert, abs]

/-- Witness for C2 at a concrete input: the spec's Example 5. -/
theorem claim_C2_witness :
    alignCore (1/2) [tsPacket 1, tsPacket (21/20)] [tsPacket (51/50)] =
      [(some 0, some 0), (some 1, Option.none)] := claim_C2.2.2

/-- C9: every alignment pair has at least one index (`(None, None)` is never
emitted), and consequently every `PacketDiff` built by `compare_captures`
carries at least one packet reference: the defensive removed-with-no-packet
branch is unreachable. -/
theorem claim_C9 (self : PacketDiffer) (packets1 packets2 : List PacketLayer) :
    ((align_packets self packets1 packets2).all
      fun pr => pr.1.isSome || pr.2.isSome) = true ∧
    ((compare_captures self packets1 packets2).packet_diffs.all
      fun d => d.packet_1.isSome || d.packet_2.isSome) = true := by
  constructor
  · rw [List.all_eq_true]
    intro pr hpr
    rcases alignCore_entry_shape self.time_window packets1 packets2 pr hpr
      with h | h
    · simp [h]
    · simp [h.2]
  · rw [List.all_eq_true]
    intro d hd
    obtain ⟨i, e, he, rfl⟩ := compareCore_diff_cases self.time_window
      self.ignore_fields packets1 packets2 d hd
    obtain ⟨o1, o2⟩ := e
    rcases alignCore_entry_shape self.time_window packets1 packets2 (o1, o2) he
      with h | h
    · rcases o1 with _ | i1
      · simp at h
      · rcases o2 with _ | i2 <;> simp [diffOfAlignment, compare_packets]
    · obtain ⟨h1, h2⟩ := h
      rcases o2 with _ | i2
      · simp at h2
      · rcases o1 with _ | i1
        · simp [diffOfAlignment]
        · simp [diffOfAlignment, compare_packets]

/-- C4 counterexample: two matched packets whose only (non-ignored)
difference is the root-level `timestamp` field yield a `PacketDiff` with
`diff_type = Unchanged` but `similarity_score = 0 ≠ 1.0`, because
`compare_layers` only inspects sublayers while the similarity score also
sees root fields.  This refutes the claim's `Unchanged ⇒ similarity 1.0`
clause. -/
theorem claim_C4_counterexample :
    ((compare_captures (PacketDiffer.mk (4/5) 1 defaultIgnoreFields)
        [tsPacket 1] [tsPacket (3/2)]).packet_diffs.map
      fun d => (d.diff_type, d.similarity_score)) =
      [(DiffType.unchanged, 0)] ∧ (0 : ℚ) ≠ 1 := by
  constructor
  · have halign : alignCore (1:ℚ) [tsPacket 1] [tsPacket (3/2)] =
        [(some 0, some 0)] := by
      norm_num [alignCore, extractTimestamps, extractTS, tsPacket,
        PacketLayer.timestampQ, PacketLayer.fields, dictGet, lookup_cons_eq,
        sortTs, tsLEP, tsLE, alignLoop, scanBest, List.insertionSort,
        List.orderedInsert, abs_of_nonneg, abs_of_nonpos]
    have hlay : compare_layers defaultIgnoreFields (tsPacket 1)
        (tsPacket (3/2)) = [] := by
      norm_num [compare_layers, tsPacket, PacketLayer.sublayers]
    have hsim : similarityCore defaultIgnoreFields (tsPacket 1)
        (tsPacket (3/2)) = 0 := by
      have hf1 : simFields defaultIgnoreFields (tsPacket 1) =
          [("timestamp", PyVal.num 1)] := by
        simp [simFields, tsPacket, get_all_fields_flat_mk, flatGo,
          defaultIgnoreFields]
      have hf2 : simFields defaultIgnoreFields (tsPacket (3/2)) =
          [("timestamp", PyVal.num (3/2))] := by
        simp [simFields, tsPacket, get_all_fields_flat_mk, flatGo,
          defaultIgnoreFields]
      rw [similarityCore, hf1, hf2]
      norm_num [simUnion, dictGet, lookup_cons_eq, List.countP_cons,
        List.countP_nil]
    show ((compareCore 1 defaultIgnoreFields [tsPacket 1]
        [tsPacket (3/2)]).packet_diffs.map
      fun d => (d.diff_type, d.similarity_score)) = [(DiffType.unchanged, 0)]
    norm_num [compareCore, halign, List.range_succ, List.range_zero,
      List.zip_cons_cons, List.zip_nil_right, List.zip_nil_left,
      List.getD_cons_zero, diffOfAlignment, compare_packets, hlay, hsim]
  · norm_num

/-- C4 (amended: the similarity clause dropped): every `PacketDiff`
produced by `compare_captures` satisfies `diffInvariant`: `Added` carries
only the capture-2 packet and no layer diffs, `Removed` only the capture-1
packet and no layer diffs, `Modified` a non-empty `layer_diffs`, and
`Unchanged` an empty `layer_diffs`. -/
theorem claim_C4 (self : PacketDiffer) (packets1 packets2 : List PacketLayer) :
    ((compare_captures self packets1 packets2).packet_diffs.all
      diffInvariant) = true := by
  rw [List.all_eq_true]
  intro d hd
  obtain ⟨i, e, he, rfl⟩ := compareCore_diff_cases self.time_window
    self.ignore_fields packets1 packets2 d hd
  obtain ⟨o1, o2⟩ := e
  have hshape := alignCore_entry_shape self.time_window packets1 packets2
    (o1, o2) he
  rcases o1 with _ | i1
  · rcases o2 with _ | i2
    · simp at hshape
    · simp [diffOfAlignment, diffInvariant]
  · rcases o2 with _ | i2
    · simp [diffOfAlignment, diffInvariant]
    · simp only [diffOfAlignment]
      unfold compare_packets diffInvariant
      by_cases hld : compare_layers self.ignore_fields
          (packets1.getD i1 defaultPacket)
          (packets2.getD i2 defaultPacket) = []
      · simp only [List.getD_eq_getElem?_getD] at hld
        simp [List.isEmpty_iff, hld]
      · simp only [List.getD_eq_getElem?_getD] at hld
        simp [List.isEmpty_iff, hld]

/-- C5: `calculate_similarity` flattens both packets (dotted-path keys),
drops ignored keys, returns 1 on an empty key union and otherwise the
fraction of union keys on which the two flattened dicts agree; the result
always lies in [0, 1]. -/
theorem claim_C5 (self : PacketDiffer) (packet1 packet2 : PacketLayer) :
    calculate_similarity self packet1 packet2 =
      (if simUnion (simFields self.ignore_fields packet1)
          (simFields self.ignore_fields packet2) = [] then 1
        else ((simUnion (simFields self.ignore_fields packet1)
            (simFields self.ignore_fields packet2)).countP fun k =>
            decide (dictGet (simFields self.ignore_fields packet1) k =
              dictGet (simFields self.ignore_fields packet2) k) : ℚ) /
          ((simUnion (simFields self.ignore_fields packet1)
            (simFields self.ignore_fields packet2)).length : ℚ)) ∧
    0 ≤ calculate_similarity self packet1 packet2 ∧
    calculate_similarity self packet1 packet2 ≤ 1 :=
  ⟨rfl, (similarityCore_bounds self.ignore_fields packet1 packet2).1,
    (similarityCore_bounds self.ignore_fields packet1 packet2).2⟩

/-- C6: comparing a capture against itself (any window ≥ 0) yields only
`Unchanged` diffs: zero `Added`, zero `Removed`. -/
theorem claim_C6 (self : PacketDiffer) (packets : List PacketLayer)
    (hw : 0 ≤ self.time_window) :
    ((compare_captures self packets packets).packet_diffs.all
      fun d => decide (d.diff_type = DiffType.unchanged)) = true ∧
    (compare_captures self packets packets).added_packets = 0 ∧
    (compare_captures self packets packets).removed_packets = 0 := by
  have halign : alignCore self.time_window packets packets =
      (sortTs (extractTimestamps packets)).map
        (fun c => (some c.2, some c.2)) :=
    alignCore_self self.time_window hw packets
  have hmem : ∀ d ∈ (compare_captures self packets packets).packet_diffs,
      d.diff_type = DiffType.unchanged := by
    intro d hd
    obtain ⟨i, e, he, rfl⟩ := compareCore_diff_cases self.time_window
      self.ignore_fields packets packets d hd
    rw [halign] at he
    obtain ⟨c, -, rfl⟩ := List.mem_map.mp he
    simp only [diffOfAlignment]
    exact compare_packets_self_unchanged self.ignore_fields _ i
  refine ⟨List.all_eq_true.mpr fun d hd => decide_eq_true (hmem d hd), ?_, ?_⟩
  · have heq : (compare_captures self packets packets).added_packets =
        ((compare_captures self packets packets).packet_diffs.countP
          fun d => decide (d.diff_type = DiffType.added)) := rfl
    rw [heq]
    refine List.countP_eq_zero.mpr fun d hd => ?_
    simp [hmem d hd]
  · have heq : (compare_captures self packets packets).removed_packets =
        ((compare_captures self packets packets).packet_diffs.countP
          fun d => decide (d.diff_type = DiffType.removed)) := rfl
    rw [heq]
    refine List.countP_eq_zero.mpr fun d hd => ?_
    simp [hmem d hd]

/-- Witness for C6 at a concrete input. -/
theorem claim_C6_witness :
    (0 : ℚ) ≤ 1 ∧
    (((compare_captures (PacketDiffer.mk (4/5) 1 defaultIgnoreFields)
        [tsPacket 1] [tsPacket 1]).packet_diffs.all
      fun d => decide (d.diff_type = DiffType.unchanged)) = true ∧
    (compare_captures (PacketDiffer.mk (4/5) 1 defaultIgnoreFields)
        [tsPacket 1] [tsPacket 1]).added_packets = 0 ∧
    (compare_captures (PacketDiffer.mk (4/5) 1 defaultIgnoreFields)
        [tsPacket 1] [tsPacket 1]).removed_packets = 0) :=
  ⟨zero_le_one,
    claim_C6 (PacketDiffer.mk (4/5) 1 defaultIgnoreFields) [tsPacket 1]
      zero_le_one⟩

/-- C8: `alignment_threshold` has no effect: two configurations agreeing on
`time_window` and the ignore set produce identical alignments and identical
comparison results. -/
theorem claim_C8 (d1 d2 : PacketDiffer) (hw : d1.time_window = d2.time_window)
    (hig : d1.ignore_fields = d2.ignore_fields)
    (packets1 packets2 : List PacketLayer) :
    align_packets d1 packets1 packets2 = align_packets d2 packets1 packets2 ∧
    compare_captures d1 packets1 packets2 =
      compare_captures d2 packets1 packets2 := by
  constructor
  · simp only [align_packets, hw]
  · simp only [compare_captures, hw, hig]

/-- Witness for C8: thresholds 0 and 1 with everything else equal. -/
theorem claim_C8_witness :
    align_packets (PacketDiffer.mk 0 1 defaultIgnoreFields) [] [] =
      align_packets (PacketDiffer.mk 1 1 defaultIgnoreFields) [] [] ∧
    compare_captures (PacketDiffer.mk 0 1 defaultIgnoreFields) [] [] =
      compare_captures (PacketDiffer.mk 1 1 defaultIgnoreFields) [] [] :=
  claim_C8 (PacketDiffer.mk 0 1 defaultIgnoreFields)
    (PacketDiffer.mk 1 1 defaultIgnoreFields) rfl rfl [] []

/-- C3: on the spec's data model (field mappings carrying scalar values,
never `None`), `_compare_layer_fields` classifies every non-ignored name in
the key union as Added / Removed / Modified according to presence and exact
value equality, omits agreeing fields, and its output holds exactly the
non-Unchanged, non-ignored names of the union. -/
theorem claim_C3 (ignore : List String) (f1 f2 : List (String × PyVal))
    (hnf1 : ∀ kv ∈ f1, kv.2 ≠ PyVal.none)
    (hnf2 : ∀ kv ∈ f2, kv.2 ≠ PyVal.none)
    (k : String) (hk : ¬ k ∈ ignore) :
    (¬ k ∈ f1.map Prod.fst → k ∈ f2.map Prod.fst →
      (k, DiffType.added) ∈ compare_layer_fields ignore f1 f2) ∧
    (k ∈ f1.map Prod.fst → ¬ k ∈ f2.map Prod.fst →
      (k, DiffType.removed) ∈ compare_layer_fields ignore f1 f2) ∧
    (k ∈ f1.map Prod.fst → k ∈ f2.map Prod.fst →
      dictGet f1 k ≠ dictGet f2 k →
      (k, DiffType.modified) ∈ compare_layer_fields ignore f1 f2) ∧
    (dictGet f1 k = dictGet f2 k →
      ∀ dt, ¬ (k, dt) ∈ compare_layer_fields ignore f1 f2) ∧
    (∀ e ∈ compare_layer_fields ignore f1 f2,
      ¬ e.1 ∈ ignore ∧ (e.1 ∈ f1.map Prod.fst ∨ e.1 ∈ f2.map Prod.fst)) := by
  refine ⟨?_, ?_, ?_, ?_, ?_⟩
  · intro h1 h2
    have hv1 : dictGet f1 k = PyVal.none := dictGet_eq_none_of_not_mem h1
    have hv2 : dictGet f2 k ≠ PyVal.none := dictGet_ne_none_of_mem hnf2 h2
    refine mem_compare_layer_fields.mpr ⟨List.mem_append.mpr (Or.inr h2), ?_⟩
    simp [classifyField, hk, hv1, hv2]
  · intro h1 h2
    have hv1 : dictGet f1 k ≠ PyVal.none := dictGet_ne_none_of_mem hnf1 h1
    have hv2 : dictGet f2 k = PyVal.none := dictGet_eq_none_of_not_mem h2
    refine mem_compare_layer_fields.mpr ⟨List.mem_append.mpr (Or.inl h1), ?_⟩
    simp [classifyField, hk, hv1, hv2]
  · intro h1 h2 hne
    have hv1 : dictGet f1 k ≠ PyVal.none := dictGet_ne_none_of_mem hnf1 h1
    have hv2 : dictGet f2 k ≠ PyVal.none := dictGet_ne_none_of_mem hnf2 h2
    refine mem_compare_layer_fields.mpr ⟨List.mem_append.mpr (Or.inl h1), ?_⟩
    simp [classifyField, hk, hv1, hv2, hne]
  · intro heq dt hmem
    have hcl := (mem_compare_layer_fields.mp hmem).2
    have hnone : classifyField ignore f1 f2 k = Option.none := by
      by_cases hn : dictGet f1 k = PyVal.none
      · have hn2 : dictGet f2 k = PyVal.none := heq ▸ hn
        simp [classifyField, hk, hn, hn2]
      · have hn2 : dictGet f2 k ≠ PyVal.none := fun h2 => hn (heq.trans h2)
        simp [classifyField, hk, hn, hn2, heq]
    rw [hnone] at hcl
    cases hcl
  · intro e he
    obtain ⟨nm, dt⟩ := e
    obtain ⟨hmem, hcl⟩ := mem_compare_layer_fields.mp he
    refine ⟨?_, List.mem_append.mp hmem⟩
    intro hig
    rw [show classifyField ignore f1 f2 nm = Option.none by
      simp [classifyField, hig]] at hcl
    cases hcl

/-- Witness for C3 at a concrete input: a field present only in mapping 2
is classified Added. -/
theorem claim_C3_witness :
    ("b", DiffType.added) ∈ compare_layer_fields ["x"]
      [("a", PyVal.num 1)] [("a", PyVal.num 2), ("b", PyVal.num 3)] :=
  (claim_C3 ["x"] [("a", PyVal.num 1)] [("a", PyVal.num 2), ("b", PyVal.num 3)]
    (by decide) (by decide) "b" (by decide)).1 (by decide) (by decide)

/-- C10: a field stored with value `None` behaves as if absent: present
only on one side with value `None` it produces no diff entry; present on
both sides with exactly one `None` value it is classified Added/Removed
rather than Modified; and in `calculate_similarity` a key that is `None`
on one side and missing on the other counts as a matching key. -/
theorem claim_C10 (ignore : List String) (f1 f2 : List (String × PyVal))
    (k : String) (hk : ¬ k ∈ ignore) :
    (¬ k ∈ f1.map Prod.fst → k ∈ f2.map Prod.fst →
      dictGet f2 k = PyVal.none →
      ∀ dt, ¬ (k, dt) ∈ compare_layer_fields ignore f1 f2) ∧
    (k ∈ f1.map Prod.fst → ¬ k ∈ f2.map Prod.fst →
      dictGet f1 k = PyVal.none →
      ∀ dt, ¬ (k, dt) ∈ compare_layer_fields ignore f1 f2) ∧
    (k ∈ f1.map Prod.fst → k ∈ f2.map Prod.fst →
      dictGet f1 k = PyVal.none → dictGet f2 k ≠ PyVal.none →
      (k, DiffType.added) ∈ compare_layer_fields ignore f1 f2 ∧
      ¬ (k, DiffType.modified) ∈ compare_layer_fields ignore f1 f2) ∧
    (k ∈ f1.map Prod.fst → k ∈ f2.map Prod.fst →
      dictGet f2 k = PyVal.none → dictGet f1 k ≠ PyVal.none →
      (k, DiffType.removed) ∈ compare_layer_fields ignore f1 f2 ∧
      ¬ (k, DiffType.modified) ∈ compare_layer_fields ignore f1 f2) ∧
    (∀ (self : PacketDiffer) (p1 p2 : PacketLayer),
      dictGet (simFields self.ignore_fields p1) k = PyVal.none →
      hasKey (simFields self.ignore_fields p2) k = false →
      dictGet (simFields self.ignore_fields p1) k =
        dictGet (simFields self.ignore_fields p2) k) := by
  refine ⟨?_, ?_, ?_, ?_, ?_⟩
  · intro h1 h2 hv2 dt hmem
    have hv1 : dictGet f1 k = PyVal.none := dictGet_eq_none_of_not_mem h1
    have hcl := (mem_compare_layer_fields.mp hmem).2
    rw [show classifyField ignore f1 f2 k = Option.none by
      simp [classifyField, hk, hv1, hv2]] at hcl
    cases hcl
  · intro h1 h2 hv1 dt hmem
    have hv2 : dictGet f2 k = PyVal.none := dictGet_eq_none_of_not_mem h2
    have hcl := (mem_compare_layer_fields.mp hmem).2
    rw [show classifyField ignore f1 f2 k = Option.none by
      simp [classifyField, hk, hv1, hv2]] at hcl
    cases hcl
  · intro h1 h2 hv1 hv2
    have hcl : classifyField ignore f1 f2 k = some (k, DiffType.added) := by
      simp [classifyField, hk, hv1, hv2]
    constructor
    · exact mem_compare_layer_fields.mpr ⟨List.mem_append.mpr (Or.inl h1), hcl⟩
    · intro hmem
      have hcl' := (mem_compare_layer_fields.mp hmem).2
      rw [hcl] at hcl'
      simp at hcl'
  · intro h1 h2 hv2 hv1
    have hcl : classifyField ignore f1 f2 k = some (k, DiffType.removed) := by
      simp [classifyField, hk, hv1, hv2]
    constructor
    · exact mem_compare_layer_fields.mpr ⟨List.mem_append.mpr (Or.inl h1), hcl⟩
    · intro hmem
      have hcl' := (mem_compare_layer_fields.mp hmem).2
      rw [hcl] at hcl'
      simp at hcl'
  · intro ds p1 p2 hv1 hmiss
    rw [hv1, dictGet_eq_none_of_hasKey_false hmiss]

/-- Witness for C10 at concrete inputs: a key that is `None` in both-present
position is classified Added rather than Modified, and a `None`-valued key
present only in mapping 1 yields no entry. -/
theorem claim_C10_witness :
    (("f", DiffType.added) ∈ compare_layer_fields []
      [("f", PyVal.none)] [("f", PyVal.num 1)] ∧
    ¬ ("f", DiffType.modified) ∈ compare_layer_fields []
      [("f", PyVal.none)] [("f", PyVal.num 1)]) ∧
    ¬ ("g", DiffType.removed) ∈ compare_layer_fields []
      [("g", PyVal.none)] [] :=
  ⟨(claim_C10 [] [("f", PyVal.none)] [("f", PyVal.num 1)] "f"
      (by decide)).2.2.1 (by decide) (by decide) (by decide) (by decide),
    (claim_C10 [] [("g", PyVal.none)] [] "g"
      (by decide)).2.1 (by decide) (by decide) (by decide) DiffType.removed⟩

/-- C7 counterexample: the ignore-set name `tcp.checksum` stored as a field
inside a sublayer named `tcp` is skipped by the field comparator (raw name
matches) but counted by the similarity scorer (its flattened key is
`tcp.tcp.checksum`, which is not in the ignore set): two matched packets
identical except for that field give `diff_type = Unchanged` but
`similarity_score = 2/3 ≠ 1.0`, refuting the claim's similarity clause. -/
theorem claim_C7_counterexample :
    "tcp.checksum" ∈ defaultIgnoreFields ∧
    ((compare_captures (PacketDiffer.mk (4/5) 1 defaultIgnoreFields)
        [tcpPacket 1] [tcpPacket 2]).packet_diffs.map
      fun d => (d.diff_type, d.similarity_score)) =
      [(DiffType.unchanged, 2/3)] ∧ ((2 : ℚ)/3) ≠ 1 := by
  refine ⟨by decide, ?_, by norm_num⟩
  have halign : alignCore (1:ℚ) [tcpPacket 1] [tcpPacket 2] =
      [(some 0, some 0)] := by
    norm_num [alignCore, extractTimestamps, extractTS, tcpPacket,
      PacketLayer.timestampQ, PacketLayer.fields, dictGet, lookup_cons_eq,
      sortTs, tsLEP, tsLE, alignLoop, scanBest, List.insertionSort,
      List.orderedInsert, abs_of_nonneg, abs_of_nonpos]
  have hlay : compare_layers defaultIgnoreFields (tcpPacket 1)
      (tcpPacket 2) = [] := by
    decide
  have hf1 : simFields defaultIgnoreFields (tcpPacket 1) =
      [("timestamp", PyVal.num 1), ("tcp.tcp.checksum", PyVal.num 1),
        ("tcp.flag", PyVal.num 7)] := by
    decide
  have hf2 : simFields defaultIgnoreFields (tcpPacket 2) =
      [("timestamp", PyVal.num 1), ("tcp.tcp.checksum", PyVal.num 2),
        ("tcp.flag", PyVal.num 7)] := by
    decide
  have hsim : similarityCore defaultIgnoreFields (tcpPacket 1)
      (tcpPacket 2) = 2/3 := by
    rw [similarityCore, hf1, hf2]
    have hdd : simUnion
        [("timestamp", PyVal.num 1), ("tcp.tcp.checksum", PyVal.num 1),
          ("tcp.flag", PyVal.num 7)]
        [("timestamp", PyVal.num 1), ("tcp.tcp.checksum", PyVal.num 2),
          ("tcp.flag", PyVal.num 7)] =
        ["timestamp", "tcp.tcp.checksum", "tcp.flag"] := by decide
    rw [hdd, if_neg (by decide)]
    have hcount : ((["timestamp", "tcp.tcp.checksum", "tcp.flag"] :
        List String).countP fun k =>
        decide (dictGet [("timestamp", PyVal.num 1),
            ("tcp.tcp.checksum", PyVal.num 1), ("tcp.flag", PyVal.num 7)] k =
          dictGet [("timestamp", PyVal.num 1),
            ("tcp.tcp.checksum", PyVal.num 2), ("tcp.flag", PyVal.num 7)] k)) =
        2 := by decide
    rw [hcount]
    norm_num
  show ((compareCore 1 defaultIgnoreFields [tcpPacket 1]
      [tcpPacket 2]).packet_diffs.map
    fun d => (d.diff_type, d.similarity_score)) = [(DiffType.unchanged, 2/3)]
  norm_num [compareCore, halign, List.range_succ, List.range_zero,
    List.zip_cons_cons, List.zip_nil_right, List.zip_nil_left,
    List.getD_cons_zero, diffOfAlignment, compare_packets, hlay, hsim]

/-- C7 (amended): the claim holds when the differing ignore-set field lives
in the packet's root field mapping: the pair compares as Unchanged, the
similarity is exactly 1 and the field appears in no `layer_diffs` entry
(the mapping is empty).  For fields inside sublayers the two ignore filters
see different names, see the counterexample. -/
theorem claim_C7 (self : PacketDiffer) (n : String)
    (fs : List (String × PyVal)) (subs : List PacketLayer) (nm : String)
    (v1 v2 : PyVal) (pid : Nat) (hnm : nm ∈ self.ignore_fields) :
    (compare_packets self.ignore_fields
        (PacketLayer.mk n (fs ++ [(nm, v1)]) subs)
        (PacketLayer.mk n (fs ++ [(nm, v2)]) subs) pid).diff_type =
      DiffType.unchanged ∧
    (compare_packets self.ignore_fields
        (PacketLayer.mk n (fs ++ [(nm, v1)]) subs)
        (PacketLayer.mk n (fs ++ [(nm, v2)]) subs) pid).similarity_score = 1 ∧
    (compare_packets self.ignore_fields
        (PacketLayer.mk n (fs ++ [(nm, v1)]) subs)
        (PacketLayer.mk n (fs ++ [(nm, v2)]) subs) pid).layer_diffs = [] := by
  have hlay : compare_layers self.ignore_fields
      (PacketLayer.mk n (fs ++ [(nm, v1)]) subs)
      (PacketLayer.mk n (fs ++ [(nm, v2)]) subs) = [] :=
    compare_layers_same_sublayers self.ignore_fields _ _ rfl
  have hsim : similarityCore self.ignore_fields
      (PacketLayer.mk n (fs ++ [(nm, v1)]) subs)
      (PacketLayer.mk n (fs ++ [(nm, v2)]) subs) = 1 := by
    refine similarityCore_eq_one_of_agree self.ignore_fields _ _ ?_
    intro k hkig
    have hknm : k ≠ nm := fun he => hkig (he ▸ hnm)
    exact flat_agree_of_root n subs fs nm v1 v2 k hknm
  refine ⟨?_, ?_, ?_⟩ <;> simp [compare_packets, hlay, hsim]

/-- Witness for C7 (amended) at a concrete input: a root-level
`tcp.checksum` field differing between otherwise-identical packets. -/
theorem claim_C7_witness :
    (compare_packets (PacketDiffer.mk (4/5) 1 defaultIgnoreFields).ignore_fields
        (PacketLayer.mk "Packet"
          ([("timestamp", PyVal.num 1)] ++ [("tcp.checksum", PyVal.num 1)]) [])
        (PacketLayer.mk "Packet"
          ([("timestamp", PyVal.num 1)] ++ [("tcp.checksum", PyVal.num 2)]) [])
        0).diff_type = DiffType.unchanged ∧
    (compare_packets (PacketDiffer.mk (4/5) 1 defaultIgnoreFields).ignore_fields
        (PacketLayer.mk "Packet"
          ([("timestamp", PyVal.num 1)] ++ [("tcp.checksum", PyVal.num 1)]) [])
        (PacketLayer.mk "Packet"
          ([("timestamp", PyVal.num 1)] ++ [("tcp.checksum", PyVal.num 2)]) [])
        0).similarity_score = 1 ∧
    (compare_packets (PacketDiffer.mk (4/5) 1 defaultIgnoreFields).ignore_fields
        (PacketLayer.mk "Packet"
          ([("timestamp", PyVal.num 1)] ++ [("tcp.checksum", PyVal.num 1)]) [])
        (PacketLayer.mk "Packet"
          ([("timestamp", PyVal.num 1)] ++ [("tcp.checksum", PyVal.num 2)]) [])
        0).layer_diffs = [] :=
  claim_C7 (PacketDiffer.mk (4/5) 1 defaultIgnoreFields) "Packet"
    [("timestamp", PyVal.num 1)] [] "tcp.checksum"
    (PyVal.num 1) (PyVal.num 2) 0 (by decide)

end PcapDiff
